import Mathlib

/-!
Verification of the Borsh instruction codec and formatter
(`ts/packages/anchor/src/coder/borsh/instruction.ts`).

The development shallowly embeds the instruction coder: the IDL data model,
the discriminator table built by the `BorshInstructionCoder` constructor,
`encode`/`decode`, and the `InstructionFormatter`.  Byte buffers are
`List Nat` (each entry one byte), JavaScript values are the `JsVal`
inductive, and maps are association lists with JavaScript `Map` semantics
(insertion order, later `set` overwrites).  External collaborators
(the borsh layout library, SHA-256, string case conversion) are modelled
as noted on each definition.
-/

namespace Anchor

/-! ## Character classes and case conversion

The source uses the npm packages `camelcase` and `snake-case`.  Both are
external collaborators; the spec (§9) directs that they be treated as a
"small pure external string-transform collaborator ... with straightforward
character-class scanning", which is what the definitions below do: words are
split at `_`, `-`, spaces and lower-to-upper case boundaries.
-/

def isUpperAZ (c : Char) : Bool := 65 ≤ c.toNat && c.toNat ≤ 90

def isLowerOrDigit (c : Char) : Bool :=
  (97 ≤ c.toNat && c.toNat ≤ 122) || (48 ≤ c.toNat && c.toNat ≤ 57)

/-- Splits an identifier into its words: separators are `_`, `-` and space,
and a new word starts at an upper-case letter following a lower-case letter
or digit. -/
def splitWordsAux : List Char → List Char → List String
  | [], acc => if acc.isEmpty then [] else [String.mk acc.reverse]
  | c :: cs, acc =>
    if c = '_' || c = '-' || c = ' ' then
      (if acc.isEmpty then [] else [String.mk acc.reverse]) ++ splitWordsAux cs []
    else if isUpperAZ c && (match acc with
        | p :: _ => isLowerOrDigit p
        | [] => false) then
      String.mk acc.reverse :: splitWordsAux cs [c]
    else
      splitWordsAux cs (c :: acc)

def splitWords (s : String) : List String := splitWordsAux s.data []

def lowerAll (s : String) : String := String.mk (s.data.map Char.toLower)

/-- Lower-cases a word and capitalizes its first letter. -/
def capWord (s : String) : String :=
  match s.data with
  | [] => ""
  | c :: cs => String.mk (c.toUpper :: cs.map Char.toLower)

/-- Model of the npm `camelcase` package on identifier-shaped strings. -/
def camelCase (s : String) : String :=
  match splitWords s with
  | [] => ""
  | w :: ws => lowerAll w ++ String.join (ws.map capWord)

/-- Model of `camelcase` with the `pascalCase` option (used for enum
variant display names). -/
def pascalCase (s : String) : String := String.join ((splitWords s).map capWord)

/-- Model of the npm `snake-case` package on identifier-shaped strings. -/
def snakeCase (s : String) : String :=
  String.intercalate "_" ((splitWords s).map lowerAll)

/-- Source `sentenceCase` (instruction.ts lines 375-378): insert a space
before every ASCII capital, then upper-case the first character of the
result (which, as in the source, leaves a leading space untouched when the
input starts with a capital). -/
def capFirst : List Char → List Char
  | [] => []
  | c :: cs => c.toUpper :: cs

def sentenceCase (field : String) : String :=
  String.mk (capFirst ((field.data.map (fun c => if isUpperAZ c then [' ', c] else [c])).flatten))

/-! ## UTF-8

The borsh string layout stores a string as its UTF-8 bytes.  The encoder
is the standard 4-case UTF-8 encoding of each scalar value; the decoder
reassembles the scalar from the lead byte's class (it is deliberately
lenient about continuation-byte validity, as the Node decoder is). -/

def utf8EncodeChar (c : Char) : List Nat :=
  let n := c.toNat
  if n < 128 then [n]
  else if n < 2048 then [192 + n / 64, 128 + n % 64]
  else if n < 65536 then [224 + n / 4096, 128 + n / 64 % 64, 128 + n % 64]
  else [240 + n / 262144, 128 + n / 4096 % 64, 128 + n / 64 % 64, 128 + n % 64]

def utf8Encode (s : String) : List Nat := (s.data.map utf8EncodeChar).flatten

/-- The number of continuation bytes a non-ASCII lead byte announces. -/
def utf8ContCount (b : Nat) : Nat := if b < 224 then 1 else if b < 240 then 2 else 3

/-- The payload bits of a lead byte. -/
def utf8LeadBits (b : Nat) : Nat :=
  if b < 224 then b - 192 else if b < 240 then b - 224 else b - 240

/-- Decodes one scalar per fuel unit: an ASCII byte stands alone, a lead
byte takes its continuation bytes off the front. -/
def utf8DecodeAux : Nat → List Nat → Option (List Char)
  | _, [] => some []
  | 0, _ :: _ => none
  | fuel + 1, b :: rest =>
    if b < 128 then (utf8DecodeAux fuel rest).map (fun cs => Char.ofNat b :: cs)
    else
      if utf8ContCount b ≤ rest.length then
        (utf8DecodeAux fuel (rest.drop (utf8ContCount b))).map
          (fun cs =>
            Char.ofNat
              ((rest.take (utf8ContCount b)).foldl (fun a x => a * 64 + (x - 128))
                (utf8LeadBits b)) :: cs)
      else none

def utf8Decode (bs : List Nat) : Option (List Char) := utf8DecodeAux bs.length bs

/-! ## Little-endian fixed-width integers -/

/-- The `w` little-endian bytes of `n` (as written by the primitive layout
library's fixed-width writers). -/
def natLE : Nat → Nat → List Nat
  | 0, _ => []
  | w + 1, n => n % 256 :: natLE w (n / 256)

/-- Reads `w` little-endian bytes off the front of a buffer. -/
def readLE : Nat → List Nat → Option (Nat × List Nat)
  | 0, bs => some (0, bs)
  | _ + 1, [] => none
  | w + 1, b :: bs => (readLE w bs).map (fun p => (b + 256 * p.1, p.2))

theorem natLE_length (w n : Nat) : (natLE w n).length = w := by
  induction w generalizing n with
  | zero => rfl
  | succ w ih => simp [natLE, ih]

theorem readLE_natLE (w n : Nat) (rest : List Nat) :
    readLE w (natLE w n ++ rest) = some (n % 256 ^ w, rest) := by
  induction w generalizing n with
  | zero => simp [natLE, readLE, Nat.mod_one]
  | succ w ih =>
    have h : n % 256 + 256 * (n / 256 % 256 ^ w) = n % 256 ^ (w + 1) := by
      rw [pow_succ, mul_comm (256 ^ w) 256, Nat.mod_mul]
    simp [natLE, readLE, ih, h]

/-! ## SHA-256

The `js-sha256` hash primitive is an external collaborator (spec §6: it
"exposes digest(utf8String) -> fixedLengthBytes; core takes the first 8
bytes").  It is modelled by a full implementation of FIPS 180-4 SHA-256
over byte lists, with 32-bit words as `Nat` reduced mod `2^32`. -/

def rotr32 (k n : Nat) : Nat := ((n >>> k) ||| (n <<< (32 - k))) % 4294967296

def sha256K : List Nat :=
  [1116352408, 1899447441, 3049323471, 3921009573, 961987163, 1508970993, 2453635748, 2870763221,
   3624381080, 310598401, 607225278, 1426881987, 1925078388, 2162078206, 2614888103, 3248222580,
   3835390401, 4022224774, 264347078, 604807628, 770255983, 1249150122, 1555081692, 1996064986,
   2554220882, 2821834349, 2952996808, 3210313671, 3336571891, 3584528711, 113926993, 338241895,
   666307205, 773529912, 1294757372, 1396182291, 1695183700, 1986661051, 2177026350, 2456956037,
   2730485921, 2820302411, 3259730800, 3345764771, 3516065817, 3600352804, 4094571909, 275423344,
   430227734, 506948616, 659060556, 883997877, 958139571, 1322822218, 1537002063, 1747873779,
   1955562222, 2024104815, 2227730452, 2361852424, 2428436474, 2756734187, 3204031479, 3329325298]

def sha256H0 : List Nat :=
  [1779033703, 3144134277, 1013904242, 2773480762, 1359893119, 2600822924, 528734635, 1541459225]

/-- Big-endian byte string of width `w`. -/
def beBytes (w n : Nat) : List Nat := (natLE w n).reverse

/-- Merkle-Damgård padding: a `0x80` byte, zeros to 56 mod 64, and the
bit length as 8 big-endian bytes. -/
def sha256Pad (msg : List Nat) : List Nat :=
  msg ++ [128] ++ List.replicate ((119 - msg.length % 64) % 64) 0 ++ beBytes 8 (8 * msg.length)

/-- Splits into blocks of `n` bytes, spending one fuel unit per block
(every caller passes the list's length, ample fuel). -/
def chunksAux (n : Nat) : Nat → List Nat → List (List Nat)
  | _, [] => []
  | 0, _ :: _ => []
  | fuel + 1, l => l.take n :: chunksAux n fuel (l.drop n)

def chunks (n : Nat) (l : List Nat) : List (List Nat) := chunksAux n l.length l

def wordsOfBlock (block : List Nat) : List Nat :=
  (List.range 16).map (fun i =>
    block.getD (4 * i) 0 * 16777216 + block.getD (4 * i + 1) 0 * 65536 +
      block.getD (4 * i + 2) 0 * 256 + block.getD (4 * i + 3) 0)

def smallSigma0 (x : Nat) : Nat := rotr32 7 x ^^^ rotr32 18 x ^^^ (x >>> 3)

def smallSigma1 (x : Nat) : Nat := rotr32 17 x ^^^ rotr32 19 x ^^^ (x >>> 10)

def bigSigma0 (x : Nat) : Nat := rotr32 2 x ^^^ rotr32 13 x ^^^ rotr32 22 x

def bigSigma1 (x : Nat) : Nat := rotr32 6 x ^^^ rotr32 11 x ^^^ rotr32 25 x

/-- Extends the 16 block words to the 64-word message schedule. -/
def sha256Schedule (ws : List Nat) : List Nat :=
  (List.range 48).foldl
    (fun acc _ =>
      let n := acc.length
      acc ++ [(smallSigma1 (acc.getD (n - 2) 0) + acc.getD (n - 7) 0 +
               smallSigma0 (acc.getD (n - 15) 0) + acc.getD (n - 16) 0) % 4294967296])
    ws

def sha256Round (st : List Nat) (kw : Nat × Nat) : List Nat :=
  match st with
  | [a, b, c, d, e, f, g, h] =>
    let ch := (e &&& f) ^^^ ((e ^^^ 4294967295) &&& g)
    let maj := (a &&& b) ^^^ (a &&& c) ^^^ (b &&& c)
    let t1 := (h + bigSigma1 e + ch + kw.1 + kw.2) % 4294967296
    let t2 := (bigSigma0 a + maj) % 4294967296
    [(t1 + t2) % 4294967296, a, b, c, (d + t1) % 4294967296, e, f, g]
  | _ => st

def sha256Compress (h : List Nat) (block : List Nat) : List Nat :=
  let w := sha256Schedule (wordsOfBlock block)
  let st := (sha256K.zip w).foldl sha256Round h
  (h.zip st).map (fun p => (p.1 + p.2) % 4294967296)

/-- SHA-256 digest of a byte string, as 32 bytes. -/
def sha256Digest (msg : List Nat) : List Nat :=
  (((chunks 64 (sha256Pad msg)).foldl sha256Compress sha256H0).map (beBytes 4)).flatten

/-- Source `sighash` (instruction.ts lines 382-386): the first 8 bytes of
the SHA-256 digest of `nameSpace ++ ":" ++ snakeCase ixName`. -/
def sighash (nameSpace ixName : String) : List Nat :=
  (sha256Digest (utf8Encode (nameSpace ++ ":" ++ snakeCase ixName))).take 8

/-! ## The IDL data model (idl.ts shapes used by instruction.ts) -/

inductive IdlType where
  | bool | u8 | i8 | u16 | i16 | u32 | i32 | u64 | i64 | u128 | i128
  | bytes | string | publicKey
  | vec (t : IdlType)
  | option (t : IdlType)
  | array (t : IdlType) (n : Nat)
  | defined (name : String)
deriving Repr, DecidableEq

structure IdlField where
  name : String
  type : IdlType
deriving Repr, DecidableEq

/-- An enum variant's payload: `IdlField[]` (named fields) or `IdlType[]`
(tuple). -/
inductive IdlEnumFields where
  | named (fields : List IdlField)
  | tuple (types : List IdlType)
deriving Repr, DecidableEq

structure IdlEnumVariant where
  name : String
  fields : Option IdlEnumFields
deriving Repr, DecidableEq

inductive IdlTypeDefTy where
  | struct (fields : List IdlField)
  | enum (variants : List IdlEnumVariant)
deriving Repr, DecidableEq

structure IdlTypeDef where
  name : String
  ty : IdlTypeDefTy
deriving Repr, DecidableEq

/-- An account slot (`IdlAccount`) or a named group of further slots
(`IdlAccounts`). -/
inductive IdlAccountItem where
  | account (name : String) (isMut : Bool) (isSigner : Bool)
  | group (name : String) (accounts : List IdlAccountItem)
deriving Repr

structure IdlInstruction where
  name : String
  args : List IdlField
  discriminant : Option (List Nat)
  accounts : List IdlAccountItem
deriving Repr

structure Idl where
  instructions : List IdlInstruction
  accounts : Option (List IdlTypeDef)
  types : Option (List IdlTypeDef)
deriving Repr

/-! ## JavaScript values

Decoded instruction data and encoder inputs are JavaScript values: numbers
(and the bignums borsh uses for 64-bit and wider integers, both modelled as
`Int`), strings, booleans, arrays, plain objects with ordered keys, `null`,
byte buffers and public keys. -/

inductive JsVal where
  | num (i : Int)
  | str (s : String)
  | boolean (b : Bool)
  | arr (elems : List JsVal)
  | obj (fields : List (String × JsVal))
  | jsNull
  | bytesVal (bs : List Nat)
  | pubkey (bs : List Nat)
deriving Repr

/-- Decoded instruction: `{ name, data }`. -/
structure Instruction where
  name : String
  data : JsVal
deriving Repr

/-! ## JavaScript Map model

`Map` keeps insertion order; `set` of an existing key overwrites in place.
The source keys `discriminatorLayouts` by `bs58.encode(bytes)`; base58
encoding is injective on byte strings, so the model keys directly by the
byte list. -/

def mapSet [DecidableEq κ] : List (κ × α) → κ → α → List (κ × α)
  | [], k, v => [(k, v)]
  | p :: m, k, v => if p.1 = k then (k, v) :: m else p :: mapSet m k v

def mapGet [DecidableEq κ] : List (κ × α) → κ → Option α
  | [], _ => none
  | p :: m, k => if p.1 = k then some p.2 else mapGet m k

/-! ## The borsh layout library

Modelled from the spec: the `@coral-xyz/borsh` / `buffer-layout` primitives
(`IdlCoder.fieldLayout` and the layouts it composes) are code of this
repository that is not under `src/`; the definitions below follow spec §4.1:
fixed-width little-endian integers, `u32`-length-prefixed strings, byte
arrays and vectors, a one-byte present/absent tag for options, `n`
back-to-back encodings for arrays, fixed-order field structs for defined
structs, and a `u8` variant index followed by the variant payload for
enums.  Struct and named-variant values are mappings carrying exactly the
declared fields in declared order; enum values are single-key mappings
keyed by the declared variant name.  `fuel` bounds the recursion depth
(the source recurses on the JavaScript stack and can diverge on
self-referential defined types, the latent defect flagged in spec §9). -/

def uIntBytes (w : Nat) (i : Int) : Except String (List Nat) :=
  if 0 ≤ i ∧ i < (256 : Int) ^ w then .ok (natLE w i.toNat)
  else .error "RangeError: unsigned value out of range"

def sIntBytes (w : Nat) (i : Int) : Except String (List Nat) :=
  if -((256 : Int) ^ w / 2) ≤ i ∧ i < (256 : Int) ^ w / 2 then
    .ok (natLE w (i % (256 : Int) ^ w).toNat)
  else .error "RangeError: signed value out of range"

def readUInt (w : Nat) (bs : List Nat) : Except String (Nat × List Nat) :=
  match readLE w bs with
  | some p => .ok p
  | none => .error "RangeError: out of bounds"

def readSInt (w : Nat) (bs : List Nat) : Except String (Int × List Nat) :=
  (readUInt w bs).map (fun p =>
    (if p.1 < 256 ^ w / 2 then (p.1 : Int) else (p.1 : Int) - (256 : Int) ^ w, p.2))

/-- The u32 length prefix used by vectors, strings and byte buffers. -/
def u32Bytes (n : Nat) : Except String (List Nat) :=
  if n < 4294967296 then .ok (natLE 4 n)
  else .error "RangeError: length out of range"

mutual

def encodeTy : Nat → List IdlTypeDef → IdlType → JsVal → Except String (List Nat)
  | 0, _, _, _ => .error "RangeError: maximum call stack size exceeded"
  | _ + 1, _, .bool, .boolean b => .ok [if b then 1 else 0]
  | _ + 1, _, .u8, .num i => uIntBytes 1 i
  | _ + 1, _, .i8, .num i => sIntBytes 1 i
  | _ + 1, _, .u16, .num i => uIntBytes 2 i
  | _ + 1, _, .i16, .num i => sIntBytes 2 i
  | _ + 1, _, .u32, .num i => uIntBytes 4 i
  | _ + 1, _, .i32, .num i => sIntBytes 4 i
  | _ + 1, _, .u64, .num i => uIntBytes 8 i
  | _ + 1, _, .i64, .num i => sIntBytes 8 i
  | _ + 1, _, .u128, .num i => uIntBytes 16 i
  | _ + 1, _, .i128, .num i => sIntBytes 16 i
  | _ + 1, _, .bytes, .bytesVal bs =>
    if bs.all (fun b => b < 256) then do
      let len ← u32Bytes bs.length
      pure (len ++ bs)
    else .error "RangeError: byte out of range"
  | _ + 1, _, .string, .str s => do
    let bs := utf8Encode s
    let len ← u32Bytes bs.length
    pure (len ++ bs)
  | _ + 1, _, .publicKey, .pubkey bs =>
    if bs.length = 32 ∧ bs.all (fun b => b < 256) then .ok bs
    else .error "RangeError: not a 32-byte public key"
  | fuel + 1, tds, .vec t, .arr xs => do
    let len ← u32Bytes xs.length
    let body ← encodeList fuel tds t xs
    pure (len ++ body)
  | fuel + 1, tds, .option t, v =>
    match v with
    | .jsNull => .ok [0]
    | _ => do
      let inner ← encodeTy fuel tds t v
      pure (1 :: inner)
  | fuel + 1, tds, .array t n, .arr xs =>
    if xs.length = n then encodeList fuel tds t xs
    else .error "RangeError: wrong array length"
  | fuel + 1, tds, .defined nm, v =>
    match tds.find? (fun td => decide (td.name = nm)) with
    | none => .error ("Type not found: " ++ nm)
    | some td =>
      match td.ty with
      | .struct fields =>
        match v with
        | .obj kvs => encodeFields fuel tds fields kvs
        | _ => .error "TypeError: expected a struct value"
      | .enum variants =>
        match v with
        | .obj [(k, payload)] =>
          match (variants.enum).find? (fun p => decide (p.2.name = k)) with
          | none => .error ("Invalid enum variant: " ++ k)
          | some (i, var) =>
            if i < 256 then
              match var.fields with
              | none =>
                match payload with
                | .obj [] => .ok [i]
                | _ => .error "TypeError: unit variant carries no fields"
              | some (.named fs) =>
                match payload with
                | .obj kvs => do
                  let body ← encodeFields fuel tds fs kvs
                  pure (i :: body)
                | _ => .error "TypeError: expected named variant fields"
              | some (.tuple ts) =>
                match payload with
                | .arr xs => do
                  let body ← encodeTuple fuel tds ts xs
                  pure (i :: body)
                | _ => .error "TypeError: expected tuple variant fields"
            else .error "RangeError: variant index out of range"
        | _ => .error "TypeError: expected an enum value"
  | _ + 1, _, _, _ => .error "TypeError: value does not match type"

def encodeList : Nat → List IdlTypeDef → IdlType → List JsVal → Except String (List Nat)
  | 0, _, _, _ => .error "RangeError: maximum call stack size exceeded"
  | _ + 1, _, _, [] => .ok []
  | fuel + 1, tds, t, x :: xs => do
    let hd ← encodeTy fuel tds t x
    let tl ← encodeList fuel tds t xs
    pure (hd ++ tl)

def encodeFields : Nat → List IdlTypeDef → List IdlField → List (String × JsVal) →
    Except String (List Nat)
  | 0, _, _, _ => .error "RangeError: maximum call stack size exceeded"
  | _ + 1, _, [], [] => .ok []
  | fuel + 1, tds, f :: fs, (k, x) :: kvs =>
    if k = f.name then do
      let hd ← encodeTy fuel tds f.type x
      let tl ← encodeFields fuel tds fs kvs
      pure (hd ++ tl)
    else .error ("TypeError: unexpected field " ++ k)
  | _ + 1, _, _, _ => .error "TypeError: wrong number of fields"

def encodeTuple : Nat → List IdlTypeDef → List IdlType → List JsVal → Except String (List Nat)
  | 0, _, _, _ => .error "RangeError: maximum call stack size exceeded"
  | _ + 1, _, [], [] => .ok []
  | fuel + 1, tds, t :: ts, x :: xs => do
    let hd ← encodeTy fuel tds t x
    let tl ← encodeTuple fuel tds ts xs
    pure (hd ++ tl)
  | _ + 1, _, _, _ => .error "TypeError: wrong tuple length"

end

mutual

def decodeTy : Nat → List IdlTypeDef → IdlType → List Nat → Except String (JsVal × List Nat)
  | 0, _, _, _ => .error "RangeError: maximum call stack size exceeded"
  | _ + 1, _, .bool, bs =>
    match bs with
    | b :: rest => .ok (.boolean (b != 0), rest)
    | [] => .error "RangeError: out of bounds"
  | _ + 1, _, .u8, bs => (readUInt 1 bs).map (fun p => (.num p.1, p.2))
  | _ + 1, _, .i8, bs => (readSInt 1 bs).map (fun p => (.num p.1, p.2))
  | _ + 1, _, .u16, bs => (readUInt 2 bs).map (fun p => (.num p.1, p.2))
  | _ + 1, _, .i16, bs => (readSInt 2 bs).map (fun p => (.num p.1, p.2))
  | _ + 1, _, .u32, bs => (readUInt 4 bs).map (fun p => (.num p.1, p.2))
  | _ + 1, _, .i32, bs => (readSInt 4 bs).map (fun p => (.num p.1, p.2))
  | _ + 1, _, .u64, bs => (readUInt 8 bs).map (fun p => (.num p.1, p.2))
  | _ + 1, _, .i64, bs => (readSInt 8 bs).map (fun p => (.num p.1, p.2))
  | _ + 1, _, .u128, bs => (readUInt 16 bs).map (fun p => (.num p.1, p.2))
  | _ + 1, _, .i128, bs => (readSInt 16 bs).map (fun p => (.num p.1, p.2))
  | _ + 1, _, .bytes, bs => do
    let (n, rest) ← readUInt 4 bs
    if n ≤ rest.length then .ok (.bytesVal (rest.take n), rest.drop n)
    else .error "RangeError: out of bounds"
  | _ + 1, _, .string, bs => do
    let (n, rest) ← readUInt 4 bs
    if n ≤ rest.length then
      match utf8Decode (rest.take n) with
      | some cs => .ok (.str (String.mk cs), rest.drop n)
      | none => .error "RangeError: malformed utf8"
    else .error "RangeError: out of bounds"
  | _ + 1, _, .publicKey, bs =>
    if 32 ≤ bs.length then .ok (.pubkey (bs.take 32), bs.drop 32)
    else .error "RangeError: out of bounds"
  | fuel + 1, tds, .vec t, bs => do
    let (n, rest) ← readUInt 4 bs
    let (xs, rest1) ← decodeList fuel tds t n rest
    pure (.arr xs, rest1)
  | fuel + 1, tds, .option t, bs =>
    match bs with
    | 0 :: rest => .ok (.jsNull, rest)
    | 1 :: rest => decodeTy fuel tds t rest
    | _ :: _ => .error "RangeError: invalid option tag"
    | [] => .error "RangeError: out of bounds"
  | fuel + 1, tds, .array t n, bs => do
    let (xs, rest) ← decodeList fuel tds t n bs
    pure (.arr xs, rest)
  | fuel + 1, tds, .defined nm, bs =>
    match tds.find? (fun td => decide (td.name = nm)) with
    | none => .error ("Type not found: " ++ nm)
    | some td =>
      match td.ty with
      | .struct fields => do
        let (kvs, rest) ← decodeFields fuel tds fields bs
        pure (.obj kvs, rest)
      | .enum variants =>
        match bs with
        | i :: rest =>
          match variants.get? i with
          | none => .error "RangeError: invalid variant index"
          | some var =>
            match var.fields with
            | none => .ok (.obj [(var.name, .obj [])], rest)
            | some (.named fs) => do
              let (kvs, rest1) ← decodeFields fuel tds fs rest
              pure (.obj [(var.name, .obj kvs)], rest1)
            | some (.tuple ts) => do
              let (xs, rest1) ← decodeTuple fuel tds ts rest
              pure (.obj [(var.name, .arr xs)], rest1)
        | [] => .error "RangeError: out of bounds"

def decodeList : Nat → List IdlTypeDef → IdlType → Nat → List Nat →
    Except String (List JsVal × List Nat)
  | 0, _, _, _, _ => .error "RangeError: maximum call stack size exceeded"
  | _ + 1, _, _, 0, bs => .ok ([], bs)
  | fuel + 1, tds, t, n + 1, bs => do
    let (x, rest) ← decodeTy fuel tds t bs
    let (xs, rest1) ← decodeList fuel tds t n rest
    pure (x :: xs, rest1)

def decodeFields : Nat → List IdlTypeDef → List IdlField → List Nat →
    Except String (List (String × JsVal) × List Nat)
  | 0, _, _, _ => .error "RangeError: maximum call stack size exceeded"
  | _ + 1, _, [], bs => .ok ([], bs)
  | fuel + 1, tds, f :: fs, bs => do
    let (x, rest) ← decodeTy fuel tds f.type bs
    let (kvs, rest1) ← decodeFields fuel tds fs rest
    pure ((f.name, x) :: kvs, rest1)

def decodeTuple : Nat → List IdlTypeDef → List IdlType → List Nat →
    Except String (List JsVal × List Nat)
  | 0, _, _, _ => .error "RangeError: maximum call stack size exceeded"
  | _ + 1, _, [], bs => .ok ([], bs)
  | fuel + 1, tds, t :: ts, bs => do
    let (x, rest) ← decodeTy fuel tds t bs
    let (xs, rest1) ← decodeTuple fuel tds ts rest
    pure (x :: xs, rest1)

end

/-! ## The instruction coder

`BorshInstructionCoder` (instruction.ts lines 34-151).  The source builds
`buffer-layout` objects eagerly in `parseIxLayout`; the model keeps each
instruction's argument field list and interprets it at call time, so an
unresolved defined-type reference surfaces at the same `types` lookup in
`encodeTy`/`decodeTy` that `IdlCoder.fieldLayout` performs. -/

def SIGHASH_GLOBAL_NAMESPACE : String := "global"

structure Coder where
  tds : List IdlTypeDef
  ixLayout : List (String × List IdlField)
  discriminatorLayouts : List (List Nat × (Option (List IdlField) × String))
  ixDiscriminator : List (String × List Nat)
  discriminatorLength : Nat
deriving Repr

/-- Source lines 105-118: one argument-struct layout per instruction,
keyed by the camel-cased instruction name (later duplicates overwrite). -/
def parseIxLayout (idl : Idl) : List (String × List IdlField) :=
  idl.instructions.foldl (fun m ix => mapSet m (camelCase ix.name) ix.args) []

/-- The discriminator of one instruction: the explicit `discriminant.value`
bytes when present (`Buffer.from` reduces each entry mod 256), else the
8-byte sighash. -/
def ixDisc (ix : IdlInstruction) : List Nat :=
  match ix.discriminant with
  | some v => v.map (fun b => b % 256)
  | none => sighash SIGHASH_GLOBAL_NAMESPACE ix.name

/-- The discriminator length the constructor records for one instruction
(the raw `discriminant.value.length`, or 8 for the sighash fallback). -/
def ixDiscLen (ix : IdlInstruction) : Nat :=
  match ix.discriminant with
  | some v => v.length
  | none => 8

/-- One pass of the constructor's `forEach` (source lines 48-79): register
the discriminator in both tables, then apply the length check — note the
check is guarded by the truthiness of the stored length, so a stored 0
(initial state, or a zero-length explicit discriminant) never trips it. -/
def buildStep (ixLayout : List (String × List IdlField))
    (st : List (List Nat × (Option (List IdlField) × String)) × List (String × List Nat) × Nat)
    (ix : IdlInstruction) :
    Except String
      (List (List Nat × (Option (List IdlField) × String)) × List (String × List Nat) × Nat) :=
  let dl := mapSet st.1 (ixDisc ix) (mapGet ixLayout ix.name, ix.name)
  let ixd := mapSet st.2.1 ix.name (ixDisc ix)
  if st.2.2 ≠ 0 ∧ st.2.2 ≠ ixDiscLen ix then
    .error "All instructions must have the same discriminator length"
  else .ok (dl, ixd, ixDiscLen ix)

/-- The `BorshInstructionCoder` constructor (source lines 43-83). -/
def buildCoder (idl : Idl) : Except String Coder :=
  match idl.instructions.foldlM (buildStep (parseIxLayout idl)) ([], [], 0) with
  | .error e => .error e
  | .ok (dl, ixd, dlen) =>
    .ok ⟨idl.accounts.getD [] ++ idl.types.getD [], parseIxLayout idl, dl, ixd, dlen⟩

/-- Argument tuple encoding: the instruction's `borsh.struct` layout applied
to the argument object. -/
def encodeArgs (fuel : Nat) (tds : List IdlTypeDef) (args : List IdlField) (v : JsVal) :
    Except String (List Nat) :=
  match v with
  | .obj kvs => encodeFields fuel tds args kvs
  | _ => .error "TypeError: expected an argument object"

/-- Argument tuple decoding; like `buffer-layout` struct decoding it ignores
any trailing bytes. -/
def decodeArgs (fuel : Nat) (tds : List IdlTypeDef) (args : List IdlField) (bs : List Nat) :
    Except String JsVal :=
  (decodeFields fuel tds args bs).map (fun p => .obj p.1)

/-- Source `encode`/`_encode` (lines 88-103): look up the camel-cased name
in both tables, encode the arguments into the 1000-byte scratch buffer
(writing past it raises, i.e. an encoded body longer than 1000 bytes
fails), and return `discriminator ++ body`. -/
def coderEncode (c : Coder) (fuel : Nat) (ixName : String) (v : JsVal) :
    Except String (List Nat) :=
  let methodName := camelCase ixName
  match mapGet c.ixLayout methodName, mapGet c.ixDiscriminator methodName with
  | some args, some d => do
    let body ← encodeArgs fuel c.tds args v
    if body.length ≤ 1000 then pure (d ++ body)
    else .error "RangeError: encoded body exceeds the scratch buffer"
  | _, _ => .error ("Unknown method: " ++ methodName)

/-- Source `decode` (lines 123-140) on a byte buffer: split off the
discriminator-length prefix, return `none` on a lookup miss, decode the
body otherwise (a missing layout — possible when the instruction name is
not camel-case — is the JavaScript `decoder.layout.decode` TypeError). -/
def coderDecode (c : Coder) (fuel : Nat) (ix : List Nat) :
    Except String (Option Instruction) :=
  let pre := ix.take c.discriminatorLength
  let data := ix.drop c.discriminatorLength
  match mapGet c.discriminatorLayouts pre with
  | none => .ok none
  | some (layout, name) =>
    match layout with
    | none => .error "TypeError: Cannot read properties of undefined"
    | some args => do
      let v ← decodeArgs fuel c.tds args data
      pure (some ⟨name, v⟩)

/-! ## JavaScript value stringification

The formatter's primitive branch calls `data.toString()`.  Number, string,
boolean, array, object and `null` follow the JavaScript semantics; a
`Buffer` stringifies through (lenient) UTF-8, a `PublicKey` through
base58. -/

def bs58AlphaChars : List Char :=
  "123456789ABCDEFGHJKLMNPQRSTUVWXYZabcdefghijkmnopqrstuvwxyz".data

def bs58DigitsAux : Nat → Nat → List Char
  | _, 0 => []
  | 0, _ + 1 => []
  | fuel + 1, n + 1 => bs58AlphaChars.getD ((n + 1) % 58) '1' :: bs58DigitsAux fuel ((n + 1) / 58)

/-- The base-58 digits of `n`, least significant first (`n` is its own
ample fuel bound). -/
def bs58Digits (n : Nat) : List Char := bs58DigitsAux n n

/-- Base58 rendering of a byte string: one `'1'` per leading zero byte, then
the base-58 digits of the value (big-endian). -/
def bs58Encode (bs : List Nat) : String :=
  String.mk (List.replicate (bs.takeWhile (fun b => b = 0)).length '1' ++
    (bs58Digits (bs.foldl (fun a b => a * 256 + b) 0)).reverse)

mutual

def jsToString : Nat → JsVal → Except String String
  | 0, _ => .error "RangeError: maximum call stack size exceeded"
  | _ + 1, .num i => .ok (toString i)
  | _ + 1, .str s => .ok s
  | _ + 1, .boolean b => .ok (if b then "true" else "false")
  | _ + 1, .jsNull => .error "TypeError: Cannot read properties of null"
  | fuel + 1, .arr xs => (jsToStringList fuel xs).map (String.intercalate ",")
  | _ + 1, .obj _ => .ok "[object Object]"
  | _ + 1, .bytesVal bs => .ok (String.mk ((utf8Decode bs).getD []))
  | _ + 1, .pubkey bs => .ok (bs58Encode bs)

/-- `Array.prototype.join(",")`: elements stringified recursively, with
`null` rendered as the empty string. -/
def jsToStringList : Nat → List JsVal → Except String (List String)
  | 0, _ => .error "RangeError: maximum call stack size exceeded"
  | _ + 1, [] => .ok []
  | fuel + 1, x :: xs => do
    let s ← match x with
      | .jsNull => pure ""
      | _ => jsToString fuel x
    let tl ← jsToStringList fuel xs
    pure (s :: tl)

end

/-! ## The instruction formatter -/

/-- The TypeScript `IdlType` is a string for primitive types and an object
otherwise; `primLabel` returns that string for the primitives. -/
def primLabel : IdlType → Option String
  | .bool => some "bool"
  | .u8 => some "u8"
  | .i8 => some "i8"
  | .u16 => some "u16"
  | .i16 => some "i16"
  | .u32 => some "u32"
  | .i32 => some "i32"
  | .u64 => some "u64"
  | .i64 => some "i64"
  | .u128 => some "u128"
  | .i128 => some "i128"
  | .bytes => some "bytes"
  | .string => some "string"
  | .publicKey => some "publicKey"
  | _ => none

/-- JavaScript template interpolation of a raw `IdlType`: primitives are
strings and interpolate as themselves, compound types are plain objects and
interpolate as "[object Object]". -/
def idlTypeJsString (t : IdlType) : String := (primLabel t).getD "[object Object]"

/-- Source `formatIdlType` (lines 218-237).  Note the array branch
interpolates the raw element type (`idlType.array[0]`) instead of
recursing. -/
def formatIdlType : IdlType → String
  | .vec t => "Vec<" ++ formatIdlType t ++ ">"
  | .option t => "Option<" ++ formatIdlType t ++ ">"
  | .defined nm => nm
  | .array t n => "Array<" ++ idlTypeJsString t ++ "; " ++ toString n ++ ">"
  | t => idlTypeJsString t

/-- The type-label rendering as the spec states it: identical to
`formatIdlType` except that the array case recurses into the element
label. -/
def formatIdlTypeSpec : IdlType → String
  | .vec t => "Vec<" ++ formatIdlTypeSpec t ++ ">"
  | .option t => "Option<" ++ formatIdlTypeSpec t ++ ">"
  | .defined nm => nm
  | .array t n => "Array<" ++ formatIdlTypeSpec t ++ "; " ++ toString n ++ ">"
  | t => idlTypeJsString t

/-- Decimal value of a digit string (`none` on any non-digit). -/
def decDigitsVal (cs : List Char) : Option Nat :=
  cs.foldl
    (fun acc c =>
      match acc with
      | some a => if 48 ≤ c.toNat ∧ c.toNat ≤ 57 then some (a * 10 + (c.toNat - 48)) else none
      | none => none)
    (some 0)

/-- JavaScript array indexing with a string key: only the canonical decimal
numeral strings reach array elements; any other key (in particular an enum
variant name) misses and yields `undefined`. -/
def jsArrayIndex (xs : List α) (key : String) : Option α :=
  match decDigitsVal key.data with
  | some n => if toString n = key then xs.get? n else none
  | none => none

mutual

/-- Source `formatIdlData` (lines 239-290).  The vector branch passes only
two arguments to the recursive call, so the `types` table is `undefined`
inside vector elements; array types fall through to `"unknown"`. -/
def formatIdlData : Nat → IdlField → JsVal → Option (List IdlTypeDef) → Except String String
  | 0, _, _, _ => .error "RangeError: maximum call stack size exceeded"
  | fuel + 1, f, data, types =>
    match f.type with
    | .vec t =>
      match data with
      | .arr xs =>
        (formatIdlDataList fuel t xs).map
          (fun parts => "[" ++ String.intercalate ", " parts ++ "]")
      | _ => .error "TypeError: data.map is not a function"
    | .option t =>
      match data with
      | .jsNull => .ok "null"
      | _ => formatIdlData fuel ⟨"", t⟩ data types
    | .defined nm =>
      match types with
      | none => .error "User defined types not provided"
      | some ts =>
        match ts.filter (fun td => decide (td.name = nm)) with
        | [td] => formatIdlDataDefined fuel td data ts
        | _ => .error ("Type not found: " ++ nm)
    | .array _ _ => .ok "unknown"
    | _ => jsToString fuel data

def formatIdlDataList : Nat → IdlType → List JsVal → Except String (List String)
  | 0, _, _ => .error "RangeError: maximum call stack size exceeded"
  | _ + 1, _, [] => .ok []
  | fuel + 1, t, x :: xs => do
    let s ← formatIdlData fuel ⟨"", t⟩ x none
    let tl ← formatIdlDataList fuel t xs
    pure (s :: tl)

/-- Source `formatIdlDataDefined` (lines 292-349). -/
def formatIdlDataDefined : Nat → IdlTypeDef → JsVal → List IdlTypeDef → Except String String
  | 0, _, _, _ => .error "RangeError: maximum call stack size exceeded"
  | fuel + 1, td, data, types =>
    match td.ty with
    | .struct fields =>
      match data with
      | .obj kvs =>
        (formatStructEntries fuel fields types kvs).map
          (fun parts => "\x7b " ++ String.intercalate ", " parts ++ " \x7d")
      | _ => .error "TypeError: Object.keys on a non-object"
    | .enum variants =>
      match variants with
      | [] => .ok "\x7b\x7d"
      | v0 :: _ =>
        if v0.name ≠ "" then
          match data with
          | .obj ((variant, enumType) :: _) =>
            match enumType with
            | .obj fkvs => do
              let parts ← formatVariantEntries fuel variants variant types fkvs
              let namedFields := String.intercalate ", " parts
              let variantName := pascalCase variant
              if namedFields.length = 0 then pure variantName
              else pure (variantName ++ " \x7b " ++ namedFields ++ " \x7d")
            | _ => .error "TypeError: Object.keys on a non-object"
          | _ => .error "TypeError: Object.keys on a non-object"
        else .ok "Tuple formatting not yet implemented"

def formatStructEntries : Nat → List IdlField → List IdlTypeDef → List (String × JsVal) →
    Except String (List String)
  | 0, _, _, _ => .error "RangeError: maximum call stack size exceeded"
  | _ + 1, _, _, [] => .ok []
  | fuel + 1, fields, types, (k, v) :: kvs =>
    match fields.filter (fun f => decide (f.name = k)) with
    | f :: _ => do
      let s ← formatIdlData fuel f v (some types)
      let tl ← formatStructEntries fuel fields types kvs
      pure ((k ++ ": " ++ s) :: tl)
    | [] => .error "Unable to find type"

/-- One entry of the enum named-fields walk.  The source looks the variant
up with `variants[variant]` — indexing the variants array with the decoded
variant-name string — so a non-numeric key yields `undefined` and the
optional chain leaves `idlField` undefined ("Unable to find variant"); a
numeric key would reach a variant object, which has no `.filter`. -/
def formatVariantEntries : Nat → List IdlEnumVariant → String → List IdlTypeDef →
    List (String × JsVal) → Except String (List String)
  | 0, _, _, _, _ => .error "RangeError: maximum call stack size exceeded"
  | _ + 1, _, _, _, [] => .ok []
  | _ + 1, variants, variant, _, (_, _) :: _ =>
    match jsArrayIndex variants variant with
    | none => .error "Unable to find variant"
    | some _ => .error "TypeError: variants[variant].filter is not a function"

end

/-! ## Account flattening and the accounts display -/

structure FlatIdlAccount where
  name : String
  isMut : Bool
  isSigner : Bool
deriving Repr, DecidableEq

structure AccountMeta where
  pubkey : List Nat
  isSigner : Bool
  isWritable : Bool
deriving Repr, DecidableEq

structure AccountDisplay where
  name : Option String
  pubkey : List Nat
  isSigner : Bool
  isWritable : Bool
deriving Repr, DecidableEq

/-- The JavaScript conditional `prefix ? prefix + " > " + accName : accName`
(an empty-string prefix is falsy). -/
def joinAccName (pre : Option String) (accName : String) : String :=
  match pre with
  | some p => if p = "" then accName else p ++ " > " ++ accName
  | none => accName

mutual

/-- Source `flattenIdlAccounts` (lines 351-372), with the source's
`map … .flat()` written as the equivalent structural recursion. -/
def flattenIdlAccounts : List IdlAccountItem → Option String → List FlatIdlAccount
  | [], _ => []
  | a :: rest, pre => flattenIdlAccount a pre ++ flattenIdlAccounts rest pre

def flattenIdlAccount : IdlAccountItem → Option String → List FlatIdlAccount
  | .account name isMut isSigner, pre => [⟨joinAccName pre (sentenceCase name), isMut, isSigner⟩]
  | .group name children, pre =>
    flattenIdlAccounts children (some (joinAccName pre (sentenceCase name)))

end

/-- The accounts half of `InstructionFormatter.format` (source lines
192-210): flatten the declared accounts and zip positionally against the
runtime metadata; entries past the flattened list get no name. -/
def formatAccounts (idlAccounts : List IdlAccountItem) (metas : List AccountMeta) :
    List AccountDisplay :=
  let flat := flattenIdlAccounts idlAccounts none
  metas.enum.map (fun p =>
    if p.1 < flat.length then
      ⟨some ((flat.getD p.1 ⟨"", false, false⟩).name), p.2.pubkey, p.2.isSigner, p.2.isWritable⟩
    else ⟨none, p.2.pubkey, p.2.isSigner, p.2.isWritable⟩)

mutual

/-- The claim's account naming: each leaf is named by the " > "-join of the
sentence-cased names of its ancestor groups and itself, depth-first in
declaration order. -/
def specAccountPaths : List IdlAccountItem → List String
  | [] => []
  | a :: rest => specAccountPath a ++ specAccountPaths rest

def specAccountPath : IdlAccountItem → List String
  | .account name _ _ => [sentenceCase name]
  | .group name children =>
    (specAccountPaths children).map (fun q => sentenceCase name ++ " > " ++ q)

end

mutual

/-- Every group in the account tree has a nonempty name. -/
def groupNamesNonempty : List IdlAccountItem → Bool
  | [] => true
  | a :: rest => groupNameNonempty a && groupNamesNonempty rest

def groupNameNonempty : IdlAccountItem → Bool
  | .account _ _ _ => true
  | .group name children => !name.isEmpty && groupNamesNonempty children

end

/-! ## Concrete instances used by the witnesses and counterexamples -/

def ixInit : IdlInstruction := ⟨"initialize", [⟨"amount", .u64⟩, ⟨"flag", .bool⟩], none, []⟩

def idlRt : Idl := ⟨[ixInit], none, none⟩

def cRt : Coder := (buildCoder idlRt).toOption.getD ⟨[], [], [], [], 0⟩

def vRt : JsVal := .obj [("amount", .num 5), ("flag", .boolean true)]

def bytesRt : List Nat := (coderEncode cRt 50 "initialize" vRt).toOption.getD []

/-- A snake_case-named instruction: the camelCase lookup key differs from
the stored key. -/
def ixSnake : IdlInstruction := ⟨"my_ix", [], none, []⟩

def idlSnake : Idl := ⟨[ixSnake], none, none⟩

def cSnake : Coder := (buildCoder idlSnake).toOption.getD ⟨[], [], [], [], 0⟩

/-- An instruction with a zero-length explicit discriminant. -/
def ixZeroDisc : IdlInstruction := ⟨"a", [], some [], []⟩

def ixNoDisc : IdlInstruction := ⟨"b", [], none, []⟩

def idlZeroLen : Idl := ⟨[ixZeroDisc, ixNoDisc], none, none⟩

def idlMismatch : Idl :=
  ⟨[⟨"c", [], some [1, 2, 3, 4], []⟩, ⟨"d", [], some [1, 2, 3, 4, 5, 6, 7, 8], []⟩], none, none⟩

def ixPush : IdlInstruction := ⟨"pushData", [⟨"data", .bytes⟩], none, []⟩

def idlPush : Idl := ⟨[ixPush], none, none⟩

def cPush : Coder := (buildCoder idlPush).toOption.getD ⟨[], [], [], [], 0⟩

/-- A 997-byte payload: its encoded body is 4 + 997 = 1001 bytes, one more
than the scratch buffer. -/
def vBig : JsVal := .obj [("data", .bytesVal (List.replicate 997 0))]

def bodyBig : List Nat := (encodeArgs 50 cPush.tds ixPush.args vBig).toOption.getD []

def stateTd : IdlTypeDef :=
  ⟨"State", .enum [⟨"idle", none⟩, ⟨"running", some (.named [⟨"progress", .u8⟩])⟩]⟩

def accsEx : List IdlAccountItem :=
  [.group "authority" [.account "owner" false true, .account "payer" true true],
   .account "systemProgram" false false]

def metasEx : List AccountMeta :=
  [⟨[1], false, false⟩, ⟨[2], true, false⟩, ⟨[3], false, true⟩, ⟨[4], true, true⟩]

/-! ## Map and constructor-fold lemmas -/

theorem mapGet_set_self [DecidableEq κ] (m : List (κ × α)) (k : κ) (v : α) :
    mapGet (mapSet m k v) k = some v := by
  induction m with
  | nil => simp [mapSet, mapGet]
  | cons p m ih =>
    by_cases h : p.1 = k
    · simp [mapSet, mapGet, h]
    · simp [mapSet, mapGet, h, ih]

theorem mapGet_set_other [DecidableEq κ] (m : List (κ × α)) (k k' : κ) (v : α)
    (h : k' ≠ k) : mapGet (mapSet m k v) k' = mapGet m k' := by
  induction m with
  | nil => simp [mapSet, mapGet, Ne.symm h]
  | cons p m ih =>
    by_cases hp : p.1 = k
    · simp [mapSet, mapGet, hp, Ne.symm h]
    · simp [mapSet, mapGet, hp, ih]

theorem foldSet_get_notin [DecidableEq κ] (key : α → κ) (val : α → β) (l : List α) :
    ∀ (m0 : List (κ × β)) (k : κ), (∀ x ∈ l, key x ≠ k) →
      mapGet (l.foldl (fun m x => mapSet m (key x) (val x)) m0) k = mapGet m0 k := by
  induction l with
  | nil => intro m0 k _; rfl
  | cons x l ih =>
    intro m0 k h
    rw [List.foldl_cons, ih _ k (fun y hy => h y (List.mem_cons_of_mem x hy)),
      mapGet_set_other _ _ _ _ (Ne.symm (h x (List.mem_cons_self x l)))]

theorem foldSet_get_mem [DecidableEq κ] (key : α → κ) (val : α → β) (l : List α) :
    ∀ (m0 : List (κ × β)) (x : α), x ∈ l → (l.map key).Nodup →
      mapGet (l.foldl (fun m y => mapSet m (key y) (val y)) m0) (key x) = some (val x) := by
  induction l with
  | nil => intro m0 x hx _; cases hx
  | cons y l ih =>
    intro m0 x hx hnd
    rw [List.map_cons, List.nodup_cons] at hnd
    rw [List.foldl_cons]
    rcases List.mem_cons.mp hx with h | h
    · subst h
      rw [foldSet_get_notin key val l _ (key x)
          (fun z hz hk => hnd.1 (by rw [← hk]; exact List.mem_map_of_mem key hz)),
        mapGet_set_self]
    · exact ih _ x h hnd.2

theorem buildFold_maps (L : List (String × List IdlField)) (l : List IdlInstruction) :
    ∀ st st', l.foldlM (buildStep L) st = .ok st' →
      st'.1 = l.foldl (fun m ix => mapSet m (ixDisc ix) (mapGet L ix.name, ix.name)) st.1 ∧
      st'.2.1 = l.foldl (fun m ix => mapSet m ix.name (ixDisc ix)) st.2.1 := by
  induction l with
  | nil => intro st st' h; cases h; exact ⟨rfl, rfl⟩
  | cons x l ih =>
    intro st st' h
    rw [List.foldlM_cons] at h
    unfold buildStep at h
    split at h
    · simp only [Bind.bind, Except.bind] at h
      cases h
    · simp only [Bind.bind, Except.bind] at h
      exact ih _ _ h

theorem buildCoder_ok (idl : Idl) (c : Coder) (h : buildCoder idl = .ok c) :
    c.tds = idl.accounts.getD [] ++ idl.types.getD [] ∧
    c.ixLayout = parseIxLayout idl ∧
    c.discriminatorLayouts =
      idl.instructions.foldl
        (fun m ix => mapSet m (ixDisc ix) (mapGet (parseIxLayout idl) ix.name, ix.name)) [] ∧
    c.ixDiscriminator = idl.instructions.foldl (fun m ix => mapSet m ix.name (ixDisc ix)) [] := by
  unfold buildCoder at h
  split at h
  · cases h
  · next dl ixd dlen hf =>
    obtain ⟨h1, h2⟩ := buildFold_maps _ _ _ _ hf
    cases h
    exact ⟨rfl, rfl, h1, h2⟩

theorem parseIxLayout_get (idl : Idl) (ix : IdlInstruction) (hx : ix ∈ idl.instructions)
    (hnd : (idl.instructions.map (fun i => camelCase i.name)).Nodup) :
    mapGet (parseIxLayout idl) (camelCase ix.name) = some ix.args := by
  unfold parseIxLayout
  exact foldSet_get_mem (fun i => camelCase i.name) (fun i => i.args) idl.instructions [] ix hx hnd

theorem build_ixDiscriminator_get (idl : Idl) (c : Coder) (ix : IdlInstruction)
    (h : buildCoder idl = .ok c) (hx : ix ∈ idl.instructions)
    (hnd : (idl.instructions.map (fun i => i.name)).Nodup) :
    mapGet c.ixDiscriminator ix.name = some (ixDisc ix) := by
  rw [(buildCoder_ok idl c h).2.2.2]
  exact foldSet_get_mem (fun i => i.name) ixDisc idl.instructions [] ix hx hnd

theorem build_discriminatorLayouts_get (idl : Idl) (c : Coder) (ix : IdlInstruction)
    (h : buildCoder idl = .ok c) (hx : ix ∈ idl.instructions)
    (hnd : (idl.instructions.map ixDisc).Nodup) :
    mapGet c.discriminatorLayouts (ixDisc ix) =
      some (mapGet (parseIxLayout idl) ix.name, ix.name) := by
  rw [(buildCoder_ok idl c h).2.2.1]
  exact foldSet_get_mem ixDisc (fun i => (mapGet (parseIxLayout idl) i.name, i.name))
    idl.instructions [] ix hx hnd

/-! ## Primitive round-trip lemmas -/

theorem uIntBytes_roundTrip (w : Nat) (i : Int) (bytes : List Nat)
    (h : uIntBytes w i = .ok bytes) (rest : List Nat) :
    readUInt w (bytes ++ rest) = .ok (i.toNat, rest) ∧ ((i.toNat : Int)) = i := by
  unfold uIntBytes at h
  split at h
  · next hc =>
    cases h
    have hcast : ((256 ^ w : Nat) : Int) = (256 : Int) ^ w := by push_cast; ring
    have hlt : i.toNat < 256 ^ w := by omega
    refine ⟨?_, Int.toNat_of_nonneg hc.1⟩
    simp [readUInt, readLE_natLE, Nat.mod_eq_of_lt hlt]
  · cases h

theorem u32Bytes_roundTrip (n : Nat) (bytes : List Nat)
    (h : u32Bytes n = .ok bytes) (rest : List Nat) :
    readUInt 4 (bytes ++ rest) = .ok (n, rest) := by
  unfold u32Bytes at h
  split at h
  · next hc =>
    cases h
    have hpow : (256 : Nat) ^ 4 = 4294967296 := by norm_num
    have hlt : n < 256 ^ 4 := by omega
    have hmod : n % 4294967296 = n := Nat.mod_eq_of_lt hc
    simp [readUInt, readLE_natLE, hmod]
  · cases h

theorem sIntBytes_roundTrip (w : Nat) (i : Int) (bytes : List Nat)
    (h : sIntBytes w i = .ok bytes) (rest : List Nat) :
    readSInt w (bytes ++ rest) = .ok (i, rest) := by
  unfold sIntBytes at h
  split at h
  · next hc =>
    cases h
    cases w with
    | zero => exfalso; simp only [pow_zero] at hc; omega
    | succ w =>
      have e1 : (256 : Nat) ^ (w + 1) = 256 * 256 ^ w := by rw [pow_succ]; ring
      have e2 : (((256 : Nat) ^ (w + 1) : Nat) : Int) = (256 : Int) ^ (w + 1) := by
        push_cast; ring
      have hpos : (0 : Int) < (256 : Int) ^ (w + 1) := by positivity
      have hmod : 0 ≤ i % (256 : Int) ^ (w + 1) := Int.emod_nonneg i (by positivity)
      have hltA : i % (256 : Int) ^ (w + 1) < (256 : Int) ^ (w + 1) :=
        Int.emod_lt_of_pos i hpos
      have hm2 : i % (256 : Int) ^ (w + 1) = i ∨
          i % (256 : Int) ^ (w + 1) = i + (256 : Int) ^ (w + 1) := by
        rcases le_or_lt 0 i with hge | hlt0
        · left
          exact Int.emod_eq_of_lt hge (by omega)
        · right
          have hadd : (i + (256 : Int) ^ (w + 1) * 1) % ((256 : Int) ^ (w + 1)) =
              i % (256 : Int) ^ (w + 1) := Int.add_mul_emod_self_left ..
          rw [mul_one] at hadd
          rw [← hadd]
          exact Int.emod_eq_of_lt (by omega) (by omega)
      have hmInt : (((i % (256 : Int) ^ (w + 1)).toNat : Nat) : Int) =
          i % (256 : Int) ^ (w + 1) := Int.toNat_of_nonneg hmod
      have hmN : (i % (256 : Int) ^ (w + 1)).toNat < 256 ^ (w + 1) := by omega
      simp only [readSInt, readUInt, List.cons_append, readLE_natLE,
        Nat.mod_eq_of_lt hmN, Except.map]
      refine congrArg Except.ok (Prod.ext ?_ rfl)
      show (if (i % (256 : Int) ^ (w + 1)).toNat < 256 ^ (w + 1) / 2 then
          (((i % (256 : Int) ^ (w + 1)).toNat : Nat) : Int)
        else ((i % (256 : Int) ^ (w + 1)).toNat : Int) - (256 : Int) ^ (w + 1)) = i
      split <;> omega
  · cases h

/-! ## UTF-8 round trip -/

theorem utf8DecodeAux_encodeChar (c : Char) (fuel : Nat) (rest : List Nat) :
    utf8DecodeAux (fuel + 1) (utf8EncodeChar c ++ rest) =
      (utf8DecodeAux fuel rest).map (fun cs => c :: cs) := by
  have hvalid : Char.ofNat c.toNat = c := Char.ofNat_toNat c
  unfold utf8EncodeChar
  by_cases h1 : c.toNat < 128
  · rw [if_pos h1, List.cons_append, List.nil_append, utf8DecodeAux, if_pos h1, hvalid]
  · by_cases h2 : c.toNat < 2048
    · rw [if_neg h1, if_pos h2, List.cons_append, List.cons_append, List.nil_append,
        utf8DecodeAux, if_neg (by omega)]
      have hcnt : utf8ContCount (192 + c.toNat / 64) = 1 := by
        unfold utf8ContCount; rw [if_pos (by omega)]
      have hlead : utf8LeadBits (192 + c.toNat / 64) = c.toNat / 64 := by
        unfold utf8LeadBits; rw [if_pos (by omega)]; omega
      rw [hcnt, hlead, if_pos (by simp), List.take_cons, List.take_zero, List.drop_succ_cons,
        List.drop_zero, List.foldl_cons, List.foldl_nil]
      have hre : c.toNat / 64 * 64 + (128 + c.toNat % 64 - 128) = c.toNat := by omega
      rw [hre, hvalid]
      all_goals omega
    · by_cases h3 : c.toNat < 65536
      · rw [if_neg h1, if_neg h2, if_pos h3, List.cons_append, List.cons_append,
          List.cons_append, List.nil_append, utf8DecodeAux, if_neg (by omega)]
        have hcnt : utf8ContCount (224 + c.toNat / 4096) = 2 := by
          unfold utf8ContCount; rw [if_neg (by omega), if_pos (by omega)]
        have hlead : utf8LeadBits (224 + c.toNat / 4096) = c.toNat / 4096 := by
          unfold utf8LeadBits; rw [if_neg (by omega), if_pos (by omega)]; omega
        rw [hcnt, hlead, if_pos (by simp), List.take_cons, List.take_cons, List.take_zero,
          List.drop_succ_cons, List.drop_succ_cons, List.drop_zero, List.foldl_cons,
          List.foldl_cons, List.foldl_nil]
        have hre : (c.toNat / 4096 * 64 + (128 + c.toNat / 64 % 64 - 128)) * 64 +
            (128 + c.toNat % 64 - 128) = c.toNat := by omega
        rw [hre, hvalid]
        all_goals omega
      · rw [if_neg h1, if_neg h2, if_neg h3, List.cons_append, List.cons_append,
          List.cons_append, List.cons_append, List.nil_append, utf8DecodeAux,
          if_neg (by omega)]
        have hcnt : utf8ContCount (240 + c.toNat / 262144) = 3 := by
          unfold utf8ContCount; rw [if_neg (by omega), if_neg (by omega)]
        have hlead : utf8LeadBits (240 + c.toNat / 262144) = c.toNat / 262144 := by
          unfold utf8LeadBits; rw [if_neg (by omega), if_neg (by omega)]; omega
        rw [hcnt, hlead, if_pos (by simp), List.take_cons, List.take_cons, List.take_cons,
          List.take_zero, List.drop_succ_cons, List.drop_succ_cons, List.drop_succ_cons,
          List.drop_zero, List.foldl_cons, List.foldl_cons, List.foldl_cons, List.foldl_nil]
        have hre : ((c.toNat / 262144 * 64 + (128 + c.toNat / 4096 % 64 - 128)) * 64 +
            (128 + c.toNat / 64 % 64 - 128)) * 64 + (128 + c.toNat % 64 - 128) = c.toNat := by
          omega
        rw [hre, hvalid]
        all_goals omega

theorem utf8DecodeAux_nil (fuel : Nat) : utf8DecodeAux fuel [] = some [] := by
  cases fuel <;> rfl

theorem utf8DecodeAux_encodeList (cs : List Char) :
    ∀ fuel : Nat, utf8DecodeAux (cs.length + fuel) ((cs.map utf8EncodeChar).flatten) = some cs := by
  induction cs with
  | nil => intro fuel; simp [utf8DecodeAux_nil]
  | cons c cs ih =>
    intro fuel
    have harith : (c :: cs).length + fuel = (cs.length + fuel) + 1 := by
      simp [List.length_cons]; omega
    rw [harith, List.map_cons, List.flatten_cons, utf8DecodeAux_encodeChar, ih fuel]
    rfl

theorem utf8EncodeChar_length_pos (c : Char) : 1 ≤ (utf8EncodeChar c).length := by
  unfold utf8EncodeChar
  by_cases h1 : c.toNat < 128
  · simp [h1]
  · by_cases h2 : c.toNat < 2048
    · simp [h1, h2]
    · by_cases h3 : c.toNat < 65536 <;> simp [h1, h2, h3]

theorem utf8Encode_length_ge (cs : List Char) :
    cs.length ≤ ((cs.map utf8EncodeChar).flatten).length := by
  induction cs with
  | nil => simp
  | cons c cs ih =>
    rw [List.map_cons, List.flatten_cons, List.length_append, List.length_cons]
    have := utf8EncodeChar_length_pos c
    omega

theorem utf8Decode_utf8Encode (s : String) : utf8Decode (utf8Encode s) = some s.data := by
  unfold utf8Decode utf8Encode
  have hge := utf8Encode_length_ge s.data
  have harith : ((s.data.map utf8EncodeChar).flatten).length =
      s.data.length + (((s.data.map utf8EncodeChar).flatten).length - s.data.length) := by
    omega
  rw [harith, utf8DecodeAux_encodeList]

/-! ## The borsh round trip -/

theorem bindOk {α β : Type} (a : α) (f : α → Except String β) :
    (Except.ok a >>= f) = f a := rfl

theorem bindErr {α β : Type} (e : String) (f : α → Except String β) :
    ((Except.error e : Except String α) >>= f) = .error e := rfl

theorem pureOk {α : Type} (a : α) : (pure a : Except String α) = .ok a := rfl

theorem decode_uint_case (w : Nat) (i : Int) (bytes rest : List Nat)
    (h : uIntBytes w i = .ok bytes) :
    (readUInt w (bytes ++ rest)).map (fun p => ((JsVal.num p.1 : JsVal), p.2)) =
      .ok (.num i, rest) := by
  obtain ⟨h1, h2⟩ := uIntBytes_roundTrip w i bytes h rest
  rw [h1]
  show Except.ok (JsVal.num ((i.toNat : Nat) : Int), rest) = _
  rw [h2]

theorem decode_sint_case (w : Nat) (i : Int) (bytes rest : List Nat)
    (h : sIntBytes w i = .ok bytes) :
    (readSInt w (bytes ++ rest)).map (fun p => ((JsVal.num p.1 : JsVal), p.2)) =
      .ok (.num i, rest) := by
  rw [sIntBytes_roundTrip w i bytes h rest]
  rfl

theorem enum_find?_some {variants : List IdlEnumVariant} {k : String} {i : Nat}
    {var : IdlEnumVariant}
    (h : (variants.enum).find? (fun p => decide (p.2.name = k)) = some (i, var)) :
    variants.get? i = some var ∧ var.name = k := by
  have hmem := List.mem_of_find?_eq_some h
  have hpred := List.find?_some h
  simp only [decide_eq_true_eq] at hpred
  exact ⟨List.mk_mem_enum_iff_get?.mp hmem, hpred⟩

/-- Round trip of the borsh layouts: whatever the encoder accepts, the
decoder reads back, consuming exactly the encoded bytes. -/
theorem borshRoundTrip (fuel : Nat) :
    (∀ (tds : List IdlTypeDef) (ty : IdlType) (v : JsVal) (bytes : List Nat),
      encodeTy fuel tds ty v = .ok bytes →
      ∀ rest, decodeTy fuel tds ty (bytes ++ rest) = .ok (v, rest)) ∧
    (∀ (tds : List IdlTypeDef) (t : IdlType) (xs : List JsVal) (bytes : List Nat),
      encodeList fuel tds t xs = .ok bytes →
      ∀ rest, decodeList fuel tds t xs.length (bytes ++ rest) = .ok (xs, rest)) ∧
    (∀ (tds : List IdlTypeDef) (fs : List IdlField) (kvs : List (String × JsVal))
      (bytes : List Nat),
      encodeFields fuel tds fs kvs = .ok bytes →
      ∀ rest, decodeFields fuel tds fs (bytes ++ rest) = .ok (kvs, rest)) ∧
    (∀ (tds : List IdlTypeDef) (ts : List IdlType) (xs : List JsVal) (bytes : List Nat),
      encodeTuple fuel tds ts xs = .ok bytes →
      ∀ rest, decodeTuple fuel tds ts (bytes ++ rest) = .ok (xs, rest)) := by
  induction fuel with
  | zero =>
    refine ⟨?_, ?_, ?_, ?_⟩ <;> (intro _ _ _ _ henc; exact Except.noConfusion henc)
  | succ fuel ih =>
    obtain ⟨ihe, ihl, ihf, iht⟩ := ih
    have hstring : ∀ (tds : List IdlTypeDef) (s : String) (bytes : List Nat),
        encodeTy (fuel + 1) tds .string (.str s) = .ok bytes →
        ∀ rest, decodeTy (fuel + 1) tds .string (bytes ++ rest) = .ok (.str s, rest) := by
      intro tds s bytes henc rest
      replace henc : (do
          let len ← u32Bytes (utf8Encode s).length
          pure (len ++ utf8Encode s) : Except String (List Nat)) = .ok bytes := henc
      cases hlen : u32Bytes (utf8Encode s).length with
      | error e => rw [hlen] at henc; exact Except.noConfusion henc
      | ok lenb =>
        rw [hlen, bindOk] at henc
        replace henc : Except.ok (lenb ++ utf8Encode s) = .ok bytes := henc
        cases henc
        show (do
          let p ← readUInt 4 ((lenb ++ utf8Encode s) ++ rest)
          if p.1 ≤ p.2.length then
            match utf8Decode (p.2.take p.1) with
            | some cs => .ok ((.str (String.mk cs) : JsVal), p.2.drop p.1)
            | none => .error "RangeError: malformed utf8"
          else .error "RangeError: out of bounds") = .ok (.str s, rest)
        rw [List.append_assoc, u32Bytes_roundTrip _ _ hlen, bindOk]
        have hle : (utf8Encode s).length ≤ (utf8Encode s ++ rest).length := by
          simp [List.length_append]
        rw [if_pos hle, List.take_left, List.drop_left, utf8Decode_utf8Encode]
    refine ⟨?_, ?_, ?_, ?_⟩
    · -- encodeTy / decodeTy
      intro tds ty v bytes henc rest
      cases ty with
      | bool =>
        rcases v with i | s | b | xs | kvs | - | bs | bs <;> try exact Except.noConfusion henc
        replace henc : Except.ok [if b then (1 : Nat) else 0] = .ok bytes := henc
        cases henc
        cases b <;> rfl
      | u8 =>
        rcases v with i | s | b | xs | kvs | - | bs | bs <;> try exact Except.noConfusion henc
        exact decode_uint_case 1 i bytes rest henc
      | i8 =>
        rcases v with i | s | b | xs | kvs | - | bs | bs <;> try exact Except.noConfusion henc
        exact decode_sint_case 1 i bytes rest henc
      | u16 =>
        rcases v with i | s | b | xs | kvs | - | bs | bs <;> try exact Except.noConfusion henc
        exact decode_uint_case 2 i bytes rest henc
      | i16 =>
        rcases v with i | s | b | xs | kvs | - | bs | bs <;> try exact Except.noConfusion henc
        exact decode_sint_case 2 i bytes rest henc
      | u32 =>
        rcases v with i | s | b | xs | kvs | - | bs | bs <;> try exact Except.noConfusion henc
        exact decode_uint_case 4 i bytes rest henc
      | i32 =>
        rcases v with i | s | b | xs | kvs | - | bs | bs <;> try exact Except.noConfusion henc
        exact decode_sint_case 4 i bytes rest henc
      | u64 =>
        rcases v with i | s | b | xs | kvs | - | bs | bs <;> try exact Except.noConfusion henc
        exact decode_uint_case 8 i bytes rest henc
      | i64 =>
        rcases v with i | s | b | xs | kvs | - | bs | bs <;> try exact Except.noConfusion henc
        exact decode_sint_case 8 i bytes rest henc
      | u128 =>
        rcases v with i | s | b | xs | kvs | - | bs | bs <;> try exact Except.noConfusion henc
        exact decode_uint_case 16 i bytes rest henc
      | i128 =>
        rcases v with i | s | b | xs | kvs | - | bs | bs <;> try exact Except.noConfusion henc
        exact decode_sint_case 16 i bytes rest henc
      | bytes =>
        rcases v with i | s | b | xs | kvs | - | bs | bs <;> try exact Except.noConfusion henc
        replace henc : (if bs.all (fun b => b < 256) then (do
            let len ← u32Bytes bs.length
            pure (len ++ bs) : Except String (List Nat))
          else .error "RangeError: byte out of range") = .ok bytes := henc
        split at henc
        · cases hlen : u32Bytes bs.length with
          | error e => rw [hlen] at henc; exact Except.noConfusion henc
          | ok lenb =>
            rw [hlen, bindOk] at henc
            replace henc : Except.ok (lenb ++ bs) = .ok bytes := henc
            cases henc
            show (do
              let p ← readUInt 4 ((lenb ++ bs) ++ rest)
              if p.1 ≤ p.2.length then
                .ok ((.bytesVal (p.2.take p.1) : JsVal), p.2.drop p.1)
              else .error "RangeError: out of bounds") = .ok (.bytesVal bs, rest)
            rw [List.append_assoc, u32Bytes_roundTrip _ _ hlen, bindOk]
            have hle : bs.length ≤ (bs ++ rest).length := by simp [List.length_append]
            rw [if_pos hle, List.take_left, List.drop_left]
        · exact Except.noConfusion henc
      | string =>
        rcases v with i | s | b | xs | kvs | - | bs | bs <;> try exact Except.noConfusion henc
        exact hstring tds s bytes henc rest
      | publicKey =>
        rcases v with i | s | b | xs | kvs | - | bs | bs <;> try exact Except.noConfusion henc
        replace henc : (if bs.length = 32 ∧ bs.all (fun b => b < 256) then
            Except.ok bs else .error "RangeError: not a 32-byte public key") = .ok bytes := henc
        split at henc
        · next hcond =>
          cases henc
          show (if 32 ≤ (bytes ++ rest).length then
              Except.ok ((.pubkey ((bytes ++ rest).take 32) : JsVal), (bytes ++ rest).drop 32)
            else .error "RangeError: out of bounds") = .ok (.pubkey bytes, rest)
          have h32 : bytes.length = 32 := hcond.1
          rw [if_pos (by simp only [List.length_append]; omega), ← h32, List.take_left,
            List.drop_left]
        · exact Except.noConfusion henc
      | vec t =>
        rcases v with i | s | b | xs | kvs | - | bs | bs <;> try exact Except.noConfusion henc
        replace henc : (do
            let len ← u32Bytes xs.length
            let body ← encodeList fuel tds t xs
            pure (len ++ body) : Except String (List Nat)) = .ok bytes := henc
        cases hlen : u32Bytes xs.length with
        | error e => rw [hlen] at henc; exact Except.noConfusion henc
        | ok lenb =>
          rw [hlen, bindOk] at henc
          cases hbody : encodeList fuel tds t xs with
          | error e => rw [hbody] at henc; exact Except.noConfusion henc
          | ok body =>
            rw [hbody, bindOk] at henc
            replace henc : Except.ok (lenb ++ body) = .ok bytes := henc
            cases henc
            show (do
              let p ← readUInt 4 ((lenb ++ body) ++ rest)
              let q ← decodeList fuel tds t p.1 p.2
              pure ((.arr q.1 : JsVal), q.2)) = .ok (.arr xs, rest)
            rw [List.append_assoc, u32Bytes_roundTrip _ _ hlen, bindOk,
              ihl tds t xs body hbody rest, bindOk]
            rfl
      | option t =>
        replace henc : (match v with
          | .jsNull => Except.ok [0]
          | _ => do
            let inner ← encodeTy fuel tds t v
            pure (1 :: inner)) = .ok bytes := henc
        split at henc
        · cases henc
          rfl
        · cases hinner : encodeTy fuel tds t v with
          | error e => rw [hinner] at henc; exact Except.noConfusion henc
          | ok inner =>
            rw [hinner, bindOk] at henc
            replace henc : Except.ok (1 :: inner) = .ok bytes := henc
            cases henc
            show decodeTy fuel tds t (inner ++ rest) = .ok (v, rest)
            exact ihe tds t v inner hinner rest
      | array t n =>
        rcases v with i | s | b | xs | kvs | - | bs | bs <;> try exact Except.noConfusion henc
        replace henc : (if xs.length = n then encodeList fuel tds t xs
            else .error "RangeError: wrong array length") = .ok bytes := henc
        split at henc
        · next hn =>
          show (do
            let q ← decodeList fuel tds t n (bytes ++ rest)
            pure ((.arr q.1 : JsVal), q.2)) = .ok (.arr xs, rest)
          rw [← hn, ihl tds t xs bytes henc rest, bindOk]
          rfl
        · exact Except.noConfusion henc
      | defined nm =>
        cases hfind : tds.find? (fun td => decide (td.name = nm)) with
        | none =>
          simp only [encodeTy, hfind] at henc <;> exact Except.noConfusion henc
        | some td =>
          rcases td with ⟨tdName, tdty⟩
          cases tdty with
          | struct fields =>
            rcases v with i0 | s0 | b0 | xs0 | kvs0 | - | bs0 | bs0 <;>
              simp only [encodeTy, hfind] at henc <;>
              try exact Except.noConfusion henc
            simp only [decodeTy, hfind]
            rw [ihf tds fields kvs0 bytes henc rest, bindOk]
            rfl
          | enum variants =>
            rcases v with i0 | s0 | b0 | xs0 | kvs0 | - | bs0 | bs0
            case obj =>
              rcases kvs0 with - | ⟨⟨k, payload⟩, - | ⟨kv2, kvs2⟩⟩ <;>
                simp only [encodeTy, hfind] at henc <;>
                try exact Except.noConfusion henc
              cases hfi : (variants.enum).find? (fun p => decide (p.2.name = k)) with
              | none =>
                simp only [hfi] at henc <;> exact Except.noConfusion henc
              | some p =>
                rcases p with ⟨i, var⟩
                simp only [hfi] at henc
                obtain ⟨hget, hname⟩ := enum_find?_some hfi
                by_cases hi : i < 256
                · rw [if_pos hi] at henc
                  cases hvf : var.fields with
                  | none =>
                    simp only [hvf] at henc
                    rcases payload with i2 | s2 | b2 | xs2 | pkvs | - | bs2 | bs2 <;>
                      try exact Except.noConfusion henc
                    rcases pkvs with - | ⟨kv3, kvs3⟩
                    · replace henc : Except.ok [i] = .ok bytes := henc
                      cases henc
                      simp only [decodeTy, hfind, List.cons_append, List.nil_append, hget,
                        hvf, hname]
                    · exact Except.noConfusion henc
                  | some efs =>
                    cases efs with
                    | named fs =>
                      simp only [hvf] at henc
                      rcases payload with i2 | s2 | b2 | xs2 | pkvs | - | bs2 | bs2 <;>
                        try exact Except.noConfusion henc
                      replace henc : (do
                        let body ← encodeFields fuel tds fs pkvs
                        pure (i :: body) : Except String (List Nat)) = .ok bytes := henc
                      cases hbody : encodeFields fuel tds fs pkvs with
                      | error e =>
                        rw [hbody] at henc
                        exact Except.noConfusion henc
                      | ok body =>
                        rw [hbody, bindOk] at henc
                        replace henc : Except.ok (i :: body) = .ok bytes := henc
                        cases henc
                        simp only [decodeTy, hfind, List.cons_append, hget, hvf, hname]
                        rw [ihf tds fs pkvs body hbody rest, bindOk]
                        rfl
                    | tuple ts =>
                      simp only [hvf] at henc
                      rcases payload with i2 | s2 | b2 | xs2 | pkvs | - | bs2 | bs2 <;>
                        try exact Except.noConfusion henc
                      replace henc : (do
                        let body ← encodeTuple fuel tds ts xs2
                        pure (i :: body) : Except String (List Nat)) = .ok bytes := henc
                      cases hbody : encodeTuple fuel tds ts xs2 with
                      | error e =>
                        rw [hbody] at henc
                        exact Except.noConfusion henc
                      | ok body =>
                        rw [hbody, bindOk] at henc
                        replace henc : Except.ok (i :: body) = .ok bytes := henc
                        cases henc
                        simp only [decodeTy, hfind, List.cons_append, hget, hvf, hname]
                        rw [iht tds ts xs2 body hbody rest, bindOk]
                        rfl
                · rw [if_neg hi] at henc
                  exact Except.noConfusion henc
            all_goals simp only [encodeTy, hfind] at henc <;> exact Except.noConfusion henc
    · -- encodeList / decodeList
      intro tds t xs bytes henc rest
      cases xs with
      | nil =>
        replace henc : Except.ok ([] : List Nat) = .ok bytes := henc
        cases henc
        rfl
      | cons x xs =>
        replace henc : (do
            let hd ← encodeTy fuel tds t x
            let tl ← encodeList fuel tds t xs
            pure (hd ++ tl) : Except String (List Nat)) = .ok bytes := henc
        cases hhd : encodeTy fuel tds t x with
        | error e => rw [hhd] at henc; exact Except.noConfusion henc
        | ok hd =>
          rw [hhd, bindOk] at henc
          cases htl : encodeList fuel tds t xs with
          | error e => rw [htl] at henc; exact Except.noConfusion henc
          | ok tl =>
            rw [htl, bindOk] at henc
            replace henc : Except.ok (hd ++ tl) = .ok bytes := henc
            cases henc
            show (do
              let p ← decodeTy fuel tds t ((hd ++ tl) ++ rest)
              let q ← decodeList fuel tds t xs.length p.2
              pure (p.1 :: q.1, q.2)) = .ok (x :: xs, rest)
            rw [List.append_assoc, ihe tds t x hd hhd (tl ++ rest), bindOk,
              ihl tds t xs tl htl rest, bindOk]
            rfl
    · -- encodeFields / decodeFields
      intro tds fs kvs bytes henc rest
      cases fs with
      | nil =>
        rcases kvs with - | ⟨kv, kvs⟩
        · replace henc : Except.ok ([] : List Nat) = .ok bytes := henc
          cases henc
          rfl
        · exact Except.noConfusion henc
      | cons f fs =>
        rcases kvs with - | ⟨⟨k, x⟩, kvs⟩
        · exact Except.noConfusion henc
        replace henc : (if k = f.name then (do
            let hd ← encodeTy fuel tds f.type x
            let tl ← encodeFields fuel tds fs kvs
            pure (hd ++ tl) : Except String (List Nat))
          else .error ("TypeError: unexpected field " ++ k)) = .ok bytes := henc
        split at henc
        · next hk =>
          subst hk
          cases hhd : encodeTy fuel tds f.type x with
          | error e => rw [hhd] at henc; exact Except.noConfusion henc
          | ok hd =>
            rw [hhd, bindOk] at henc
            cases htl : encodeFields fuel tds fs kvs with
            | error e => rw [htl] at henc; exact Except.noConfusion henc
            | ok tl =>
              rw [htl, bindOk] at henc
              replace henc : Except.ok (hd ++ tl) = .ok bytes := henc
              cases henc
              show (do
                let p ← decodeTy fuel tds f.type ((hd ++ tl) ++ rest)
                let q ← decodeFields fuel tds fs p.2
                pure ((f.name, p.1) :: q.1, q.2)) = .ok ((f.name, x) :: kvs, rest)
              rw [List.append_assoc, ihe tds f.type x hd hhd (tl ++ rest), bindOk,
                ihf tds fs kvs tl htl rest, bindOk]
              rfl
        · exact Except.noConfusion henc
    · -- encodeTuple / decodeTuple
      intro tds ts xs bytes henc rest
      cases ts with
      | nil =>
        rcases xs with - | ⟨x, xs⟩
        · replace henc : Except.ok ([] : List Nat) = .ok bytes := henc
          cases henc
          rfl
        · exact Except.noConfusion henc
      | cons t ts =>
        rcases xs with - | ⟨x, xs⟩
        · exact Except.noConfusion henc
        replace henc : (do
            let hd ← encodeTy fuel tds t x
            let tl ← encodeTuple fuel tds ts xs
            pure (hd ++ tl) : Except String (List Nat)) = .ok bytes := henc
        cases hhd : encodeTy fuel tds t x with
        | error e => rw [hhd] at henc; exact Except.noConfusion henc
        | ok hd =>
          rw [hhd, bindOk] at henc
          cases htl : encodeTuple fuel tds ts xs with
          | error e => rw [htl] at henc; exact Except.noConfusion henc
          | ok tl =>
            rw [htl, bindOk] at henc
            replace henc : Except.ok (hd ++ tl) = .ok bytes := henc
            cases henc
            show (do
              let p ← decodeTy fuel tds t ((hd ++ tl) ++ rest)
              let q ← decodeTuple fuel tds ts p.2
              pure (p.1 :: q.1, q.2)) = .ok (x :: xs, rest)
            rw [List.append_assoc, ihe tds t x hd hhd (tl ++ rest), bindOk,
              iht tds ts xs tl htl rest, bindOk]
            rfl

/-! ## Coder-level lemmas -/

theorem mapGet_eq_none [DecidableEq κ] (m : List (κ × α)) (k : κ)
    (h : ∀ p ∈ m, p.1 ≠ k) : mapGet m k = none := by
  induction m with
  | nil => rfl
  | cons p m ih =>
    show (if p.1 = k then some p.2 else mapGet m k) = none
    rw [if_neg (h p (List.mem_cons_self p m))]
    exact ih (fun q hq => h q (List.mem_cons_of_mem p hq))

theorem encodeArgs_decodeArgs (fuel : Nat) (tds : List IdlTypeDef) (args : List IdlField)
    (v : JsVal) (body : List Nat) (h : encodeArgs fuel tds args v = .ok body) :
    decodeArgs fuel tds args body = .ok v := by
  rcases v with i | s | b | xs | kvs | - | bs | bs <;> try exact Except.noConfusion h
  replace h : encodeFields fuel tds args kvs = .ok body := h
  have hrt := (borshRoundTrip fuel).2.2.1 tds args kvs body h []
  rw [List.append_nil] at hrt
  show (decodeFields fuel tds args body).map (fun p => JsVal.obj p.1) = .ok (.obj kvs)
  rw [hrt]
  rfl

/-- C2: a buffer whose prefix of discriminator length matches no table
entry decodes to `none` and raises no error. -/
theorem c2_unknown_discriminator_none (idl : Idl) (c : Coder) (fuel : Nat) (bs : List Nat)
    (hbuild : buildCoder idl = .ok c)
    (hmiss : mapGet c.discriminatorLayouts (bs.take c.discriminatorLength) = none) :
    coderDecode c fuel bs = .ok none := by
  show (match mapGet c.discriminatorLayouts (bs.take c.discriminatorLength) with
    | none => (Except.ok none : Except String (Option Instruction))
    | some (layout, name) =>
      match layout with
      | none => .error "TypeError: Cannot read properties of undefined"
      | some args => do
        let v ← decodeArgs fuel c.tds args (bs.drop c.discriminatorLength)
        pure (some ⟨name, v⟩)) = .ok none
  rw [hmiss]

/-- Witness for C2: the empty buffer misses the one-entry table of the
`initialize` coder and decodes to `none`. -/
theorem c2_unknown_discriminator_none_witness :
    buildCoder idlRt = .ok cRt ∧
    mapGet cRt.discriminatorLayouts (([] : List Nat).take cRt.discriminatorLength) = none ∧
    coderDecode cRt 10 [] = .ok none :=
  ⟨rfl, rfl, c2_unknown_discriminator_none idlRt cRt 10 [] rfl rfl⟩

/-- C4 counterexample: a 3-byte buffer is strictly shorter than the 8-byte
discriminator length, yet decode returns `none` — it does not signal a
malformed-input error as the claim states. -/
theorem c4_short_buffer_counterexample :
    ([175, 175, 109] : List Nat).length < cRt.discriminatorLength ∧
    coderDecode cRt 10 [175, 175, 109] = .ok none :=
  ⟨by decide, rfl⟩

/-- C4 (amended): a buffer shorter than the discriminator length decodes to
`none` (not an error) whenever every table key has the full discriminator
length, since the short prefix then matches no entry. -/
theorem c4_short_buffer_none (idl : Idl) (c : Coder) (fuel : Nat) (bs : List Nat)
    (hbuild : buildCoder idl = .ok c)
    (hshort : bs.length < c.discriminatorLength)
    (hkeys : ∀ p ∈ c.discriminatorLayouts, p.1.length = c.discriminatorLength) :
    coderDecode c fuel bs = .ok none := by
  have htake : bs.take c.discriminatorLength = bs := List.take_of_length_le (by omega)
  apply c2_unknown_discriminator_none idl c fuel bs hbuild
  rw [htake]
  exact mapGet_eq_none _ _ (fun p hp he => by
    have := hkeys p hp
    rw [he] at this
    omega)

/-- Witness for the amended C4. -/
theorem c4_short_buffer_none_witness :
    ([1, 2, 3] : List Nat).length < cRt.discriminatorLength ∧
    coderDecode cRt 10 [1, 2, 3] = .ok none :=
  ⟨by decide, c4_short_buffer_none idlRt cRt 10 [1, 2, 3] rfl (by decide) (by decide)⟩

/-- C5: an instruction without an explicit discriminant gets the first 8
bytes of the SHA-256 digest of "global:" ++ snake_case(name) as its
discriminator, and its recorded discriminator length is 8. -/
theorem c5_sighash_discriminator (idl : Idl) (c : Coder) (ix : IdlInstruction)
    (hbuild : buildCoder idl = .ok c) (hmem : ix ∈ idl.instructions)
    (hnames : (idl.instructions.map (fun i => i.name)).Nodup)
    (hnodisc : ix.discriminant = none) :
    mapGet c.ixDiscriminator ix.name =
      some ((sha256Digest (utf8Encode ("global:" ++ snakeCase ix.name))).take 8) ∧
    ixDiscLen ix = 8 := by
  have hglobal : SIGHASH_GLOBAL_NAMESPACE ++ ":" ++ snakeCase ix.name =
      "global:" ++ snakeCase ix.name := by
    rw [show SIGHASH_GLOBAL_NAMESPACE ++ ":" = "global:" from rfl]
  constructor
  · rw [build_ixDiscriminator_get idl c ix hbuild hmem hnames]
    unfold ixDisc
    rw [hnodisc]
    unfold sighash
    rw [hglobal]
  · unfold ixDiscLen
    rw [hnodisc]

/-- Witness for C5 at the `initialize` instruction, whose sighash is the
well-known anchor discriminator af af 6d 1f 0d 98 9b ed. -/
theorem c5_sighash_discriminator_witness :
    (mapGet cRt.ixDiscriminator "initialize" =
      some ((sha256Digest (utf8Encode ("global:" ++ snakeCase "initialize"))).take 8) ∧
    ixDiscLen ixInit = 8) ∧
    (sha256Digest (utf8Encode "global:initialize")).take 8 =
      [175, 175, 109, 31, 13, 152, 155, 237] :=
  ⟨c5_sighash_discriminator idlRt cRt ixInit rfl (List.mem_cons_self _ _) (by decide) rfl,
    rfl⟩

/-- C6 (code bug): formatting the unit variant yields "Idle", but
formatting the `running` variant carrying `progress = 42` throws "Unable
to find variant", because the source indexes the variants array with the
decoded variant-name string. -/
theorem c6_enum_struct_variant_formatting :
    formatIdlData 10 ⟨"state", .defined "State"⟩ (.obj [("idle", .obj [])])
      (some [stateTd]) = .ok "Idle" ∧
    formatIdlData 10 ⟨"state", .defined "State"⟩
      (.obj [("running", .obj [("progress", .num 42)])]) (some [stateTd]) =
      .error "Unable to find variant" :=
  ⟨rfl, rfl⟩

/-- C7 (code bug): a vector of primitives renders as the bracketed,
comma-joined list, but a vector of defined-type elements throws "User
defined types not provided", because the vector branch drops the `types`
table from the recursive call. -/
theorem c7_vector_formatting :
    formatIdlData 10 ⟨"xs", .vec .u8⟩ (.arr [.num 1, .num 2, .num 3])
      (some [stateTd]) = .ok "[1, 2, 3]" ∧
    formatIdlData 10 ⟨"xs", .vec (.defined "State")⟩ (.arr [.obj [("idle", .obj [])]])
      (some [stateTd]) = .error "User defined types not provided" :=
  ⟨rfl, rfl⟩

/-- C9 (code bug): the array label interpolates the raw element type — an
object renders as "[object Object]" — instead of the recursively computed
label the spec describes; the other branches recurse as specified. -/
theorem c9_type_label :
    formatIdlType (.array (.vec .u8) 3) = "Array<[object Object]; 3>" ∧
    formatIdlTypeSpec (.array (.vec .u8) 3) = "Array<Vec<u8>; 3>" ∧
    formatIdlType (.vec (.option (.defined "Foo"))) = "Vec<Option<Foo>>" ∧
    formatIdlType (.array .u8 2) = "Array<u8; 2>" :=
  ⟨rfl, rfl, rfl, rfl⟩

/-- C10: encode writes the body into the fixed 1000-byte scratch buffer:
a body of at most 1000 bytes yields discriminator ++ exactly the consumed
bytes, and a longer body makes encode fail even though the layout accepted
the value. -/
theorem c10_encode_scratch_buffer (c : Coder) (fuel : Nat) (name : String) (v : JsVal)
    (args : List IdlField) (d : List Nat) (body : List Nat)
    (hlay : mapGet c.ixLayout (camelCase name) = some args)
    (hdisc : mapGet c.ixDiscriminator (camelCase name) = some d)
    (hbody : encodeArgs fuel c.tds args v = .ok body) :
    (body.length ≤ 1000 → coderEncode c fuel name v = .ok (d ++ body)) ∧
    (1000 < body.length → ∃ e, coderEncode c fuel name v = .error e) := by
  have hshape : coderEncode c fuel name v =
      if body.length ≤ 1000 then .ok (d ++ body)
      else .error "RangeError: encoded body exceeds the scratch buffer" := by
    show (match mapGet c.ixLayout (camelCase name), mapGet c.ixDiscriminator (camelCase name) with
      | some args, some d => do
        let body ← encodeArgs fuel c.tds args v
        if body.length ≤ 1000 then pure (d ++ body)
        else (.error "RangeError: encoded body exceeds the scratch buffer" :
          Except String (List Nat))
      | _, _ => .error ("Unknown method: " ++ camelCase name)) = _
    rw [hlay, hdisc]
    show (do
      let body ← encodeArgs fuel c.tds args v
      if body.length ≤ 1000 then pure (d ++ body)
      else (.error "RangeError: encoded body exceeds the scratch buffer" :
        Except String (List Nat))) = _
    rw [hbody, bindOk]
    split <;> rfl
  constructor <;> intro hl
  · rw [hshape, if_pos hl]
  · rw [hshape, if_neg (by omega)]
    exact ⟨_, rfl⟩

set_option maxRecDepth 100000 in
/-- Witness for C10: a 997-byte bytes argument encodes to a 1001-byte body
and makes encode fail. -/
theorem c10_encode_scratch_buffer_witness :
    bodyBig.length = 1001 ∧ ∃ e, coderEncode cPush 50 "pushData" vBig = .error e :=
  ⟨by decide,
    (c10_encode_scratch_buffer cPush 50 "pushData" vBig ixPush.args (ixDisc ixPush) bodyBig
      rfl rfl rfl).2 (by decide)⟩

/-! ## C1: the encode/decode round trip -/

/-- C1 (amended): for a well-built coder, an instruction whose name is
fixed by camelCase normalization, pairwise-distinct discriminators of the
recorded discriminator length, any successful encode (which entails the
body fitting the 1000-byte scratch buffer) decodes back to the same
instruction name and argument mapping. -/
theorem c1_encode_decode_roundTrip (idl : Idl) (c : Coder) (ix : IdlInstruction) (fuel : Nat)
    (v : JsVal) (bytes : List Nat)
    (hbuild : buildCoder idl = .ok c)
    (hmem : ix ∈ idl.instructions)
    (hcamelNd : (idl.instructions.map (fun i => camelCase i.name)).Nodup)
    (hdiscNd : (idl.instructions.map ixDisc).Nodup)
    (hfix : camelCase ix.name = ix.name)
    (hlen : (ixDisc ix).length = c.discriminatorLength)
    (henc : coderEncode c fuel ix.name v = .ok bytes) :
    coderDecode c fuel bytes = .ok (some ⟨ix.name, v⟩) := by
  have hnamesNd : (idl.instructions.map (fun i => i.name)).Nodup := by
    refine List.Nodup.of_map camelCase ?_
    have hmm : (idl.instructions.map (fun i => i.name)).map camelCase =
        idl.instructions.map (fun i => camelCase i.name) := by
      rw [List.map_map]
      rfl
    rw [hmm]
    exact hcamelNd
  have hlay : mapGet c.ixLayout (camelCase ix.name) = some ix.args := by
    rw [(buildCoder_ok idl c hbuild).2.1]
    exact parseIxLayout_get idl ix hmem hcamelNd
  have hdisc : mapGet c.ixDiscriminator (camelCase ix.name) = some (ixDisc ix) := by
    rw [hfix]
    exact build_ixDiscriminator_get idl c ix hbuild hmem hnamesNd
  simp only [coderEncode, hlay, hdisc] at henc
  replace henc : (do
    let body ← encodeArgs fuel c.tds ix.args v
    if body.length ≤ 1000 then pure (ixDisc ix ++ body)
    else (.error "RangeError: encoded body exceeds the scratch buffer" :
      Except String (List Nat))) = .ok bytes := henc
  cases hbody : encodeArgs fuel c.tds ix.args v with
  | error e => rw [hbody] at henc; exact Except.noConfusion henc
  | ok body =>
    rw [hbody, bindOk] at henc
    split at henc
    · replace henc : Except.ok (ixDisc ix ++ body) = .ok bytes := henc
      cases henc
      have hdl : mapGet c.discriminatorLayouts (ixDisc ix) = some (some ix.args, ix.name) := by
        rw [build_discriminatorLayouts_get idl c ix hbuild hmem hdiscNd]
        rw [show mapGet (parseIxLayout idl) ix.name = some ix.args from by
          rw [← hfix]; exact parseIxLayout_get idl ix hmem hcamelNd]
      show (match mapGet c.discriminatorLayouts
          ((ixDisc ix ++ body).take c.discriminatorLength) with
        | none => (Except.ok none : Except String (Option Instruction))
        | some (layout, name) =>
          match layout with
          | none => .error "TypeError: Cannot read properties of undefined"
          | some args => do
            let v1 ← decodeArgs fuel c.tds args ((ixDisc ix ++ body).drop c.discriminatorLength)
            pure (some ⟨name, v1⟩)) = .ok (some ⟨ix.name, v⟩)
      rw [← hlen, List.take_left, List.drop_left, hdl]
      show (do
        let v1 ← decodeArgs fuel c.tds ix.args body
        pure (some (⟨ix.name, v1⟩ : Instruction))) = .ok (some ⟨ix.name, v⟩)
      rw [encodeArgs_decodeArgs fuel c.tds ix.args v body hbody, bindOk]
      rfl
    · exact Except.noConfusion henc

/-- C1 counterexample: with the snake_case-named instruction `my_ix`, the
round trip fails as stated — encode itself throws "Unknown method: myIx",
because the discriminator table is keyed by the raw name while the lookup
camel-cases it. -/
theorem c1_roundTrip_counterexample :
    buildCoder idlSnake = .ok cSnake ∧
    ((coderEncode cSnake 50 "my_ix" (.obj [])).bind (fun bs => coderDecode cSnake 50 bs) ≠
      .ok (some ⟨"my_ix", .obj []⟩)) :=
  ⟨rfl, fun h => Except.noConfusion h⟩

/-- Witness for the amended C1 at a u64 + bool instruction. -/
theorem c1_encode_decode_roundTrip_witness :
    coderEncode cRt 50 "initialize" vRt = .ok bytesRt ∧
    coderDecode cRt 50 bytesRt = .ok (some ⟨"initialize", vRt⟩) :=
  ⟨rfl, c1_encode_decode_roundTrip idlRt cRt ixInit 50 vRt bytesRt rfl
    (List.mem_cons_self _ _) (by decide) (by decide) (by decide) (by decide) rfl⟩

/-! ## C3: the discriminator length check -/

theorem buildFold_fail (L : List (String × List IdlField)) :
    ∀ (l : List IdlInstruction)
      (st : List (List Nat × (Option (List IdlField) × String)) × List (String × List Nat) × Nat)
      (i a b : Nat),
      (l.map ixDiscLen).get? i = some a → (l.map ixDiscLen).get? (i + 1) = some b →
      a ≠ 0 → a ≠ b →
      ∃ e, l.foldlM (buildStep L) st = .error e := by
  intro l
  induction l with
  | nil => intro st i a b ha _ _ _; exact Option.noConfusion ha
  | cons x l ih =>
    intro st i a b ha hb hnz hab
    rw [List.foldlM_cons]
    have hstep : buildStep L st x =
        if st.2.2 ≠ 0 ∧ st.2.2 ≠ ixDiscLen x then
          .error "All instructions must have the same discriminator length"
        else .ok (mapSet st.1 (ixDisc x) (mapGet L x.name, x.name),
          mapSet st.2.1 x.name (ixDisc x), ixDiscLen x) := rfl
    rw [hstep]
    by_cases hcond : st.2.2 ≠ 0 ∧ st.2.2 ≠ ixDiscLen x
    · rw [if_pos hcond, bindErr]
      exact ⟨_, rfl⟩
    · rw [if_neg hcond, bindOk]
      cases i with
      | zero =>
        rw [List.map_cons, List.get?_cons_zero] at ha
        cases ha
        rw [List.map_cons, List.get?_cons_succ] at hb
        cases l with
        | nil => exact Option.noConfusion hb
        | cons y l2 =>
          rw [List.map_cons, List.get?_cons_zero] at hb
          cases hb
          rw [List.foldlM_cons]
          have hstep2 : buildStep L
              (mapSet st.1 (ixDisc x) (mapGet L x.name, x.name),
                mapSet st.2.1 x.name (ixDisc x), ixDiscLen x) y =
              if ixDiscLen x ≠ 0 ∧ ixDiscLen x ≠ ixDiscLen y then
                .error "All instructions must have the same discriminator length"
              else .ok (mapSet (mapSet st.1 (ixDisc x) (mapGet L x.name, x.name))
                  (ixDisc y) (mapGet L y.name, y.name),
                mapSet (mapSet st.2.1 x.name (ixDisc x)) y.name (ixDisc y), ixDiscLen y) := rfl
          rw [hstep2, if_pos ⟨hnz, hab⟩, bindErr]
          exact ⟨_, rfl⟩
      | succ i =>
        rw [List.map_cons, List.get?_cons_succ] at ha hb
        exact ih _ i a b ha hb hnz hab

/-- C3 counterexample: a schema whose first instruction records a
zero-length explicit discriminant and whose second records the 8-byte
sighash length constructs successfully — the differing lengths escape the
truthiness-guarded check. -/
theorem c3_length_check_counterexample :
    ixDiscLen ixZeroDisc = 0 ∧ ixDiscLen ixNoDisc = 8 ∧
    ixDiscLen ixZeroDisc ≠ ixDiscLen ixNoDisc ∧
    (∃ c, buildCoder idlZeroLen = .ok c) :=
  ⟨rfl, rfl, by decide, ⟨_, rfl⟩⟩

/-- C3 (amended): construction fails whenever some instruction records a
nonzero discriminator length and the instruction immediately after it
records a different one; only a zero recorded length (the initial state or
a zero-length explicit discriminant) slips past the check. -/
theorem c3_length_check_amended (idl : Idl) (i a b : Nat)
    (ha : (idl.instructions.map ixDiscLen).get? i = some a)
    (hb : (idl.instructions.map ixDiscLen).get? (i + 1) = some b)
    (hnz : a ≠ 0) (hab : a ≠ b) :
    ∃ e, buildCoder idl = .error e := by
  obtain ⟨e, he⟩ :=
    buildFold_fail (parseIxLayout idl) idl.instructions ([], [], 0) i a b ha hb hnz hab
  refine ⟨e, ?_⟩
  unfold buildCoder
  rw [he]

/-- Witness for the amended C3: explicit discriminants of lengths 4 and 8
make construction fail. -/
theorem c3_length_check_amended_witness : ∃ e, buildCoder idlMismatch = .error e :=
  c3_length_check_amended idlMismatch 0 4 8 rfl rfl (by decide) (by decide)

/-! ## C8: account flattening -/

theorem append_ne_empty_left (p q : String) (hp : p ≠ "") : p ++ q ≠ "" := by
  intro h
  apply hp
  have hd := congrArg String.data h
  rw [String.data_append] at hd
  exact String.ext (List.append_eq_nil.mp hd).1

theorem sentenceCase_ne_empty (s : String) (h : s ≠ "") : sentenceCase s ≠ "" := by
  intro heq
  have hd := congrArg String.data heq
  replace hd : capFirst ((s.data.map
      (fun c => if isUpperAZ c then [' ', c] else [c])).flatten) = [] := hd
  cases hs : s.data with
  | nil => exact h (String.ext (hs.trans rfl))
  | cons c cs =>
    rw [hs, List.map_cons, List.flatten_cons] at hd
    by_cases hc : isUpperAZ c = true
    · rw [if_pos hc] at hd
      exact List.noConfusion hd
    · rw [if_neg (by simpa using hc)] at hd
      exact List.noConfusion hd

theorem joinAccName_group (pre : Option String) (g q : String) (hg : g ≠ "") :
    joinAccName (some (joinAccName pre g)) q = joinAccName pre (g ++ " > " ++ q) := by
  cases pre with
  | none => simp [joinAccName, hg]
  | some p =>
    by_cases hp : p = ""
    · subst hp
      simp [joinAccName, hg]
    · have hne : p ++ " > " ++ g ≠ "" :=
        append_ne_empty_left _ _ (append_ne_empty_left _ _ hp)
      simp only [joinAccName, if_neg hp, if_neg hne]
      simp [String.append_assoc]

mutual

theorem flattenAccount_names (a : IdlAccountItem) (pre : Option String)
    (h : groupNameNonempty a = true) :
    (flattenIdlAccount a pre).map (fun f => f.name) =
      (specAccountPath a).map (joinAccName pre) := by
  cases a with
  | account name m sg => rfl
  | group name children =>
    replace h : (!name.isEmpty && groupNamesNonempty children) = true := h
    rw [Bool.and_eq_true] at h
    have h1 : name ≠ "" := by
      intro he
      rw [he] at h
      exact absurd h.1 (by decide)
    have h2 : groupNamesNonempty children = true := h.2
    show (flattenIdlAccounts children (some (joinAccName pre (sentenceCase name)))).map
        (fun f => f.name) =
      ((specAccountPaths children).map (fun q => sentenceCase name ++ " > " ++ q)).map
        (joinAccName pre)
    rw [flattenAccounts_names children _ h2, List.map_map]
    exact List.map_congr_left
      (fun q _ => joinAccName_group pre (sentenceCase name) q (sentenceCase_ne_empty name h1))

theorem flattenAccounts_names (l : List IdlAccountItem) (pre : Option String)
    (h : groupNamesNonempty l = true) :
    (flattenIdlAccounts l pre).map (fun f => f.name) =
      (specAccountPaths l).map (joinAccName pre) := by
  cases l with
  | nil => rfl
  | cons a rest =>
    replace h : (groupNameNonempty a && groupNamesNonempty rest) = true := h
    rw [Bool.and_eq_true] at h
    have h1 : groupNameNonempty a = true := h.1
    have h2 : groupNamesNonempty rest = true := h.2
    show (flattenIdlAccount a pre ++ flattenIdlAccounts rest pre).map (fun f => f.name) =
      (specAccountPath a ++ specAccountPaths rest).map (joinAccName pre)
    rw [List.map_append, List.map_append, flattenAccount_names a pre h1,
      flattenAccounts_names rest pre h2]

end

/-- C8: formatting flattens the account tree depth-first in declaration
order, names each leaf by the " > "-join of the sentence-cased ancestor
group names and its own sentence-cased name, and zips those names
positionally against the supplied metadata; metadata entries beyond the
flattened list get no name.  (The hypothesis that group names are nonempty
rules out the degenerate empty-string prefix, which JavaScript treats as
falsy and silently restarts the join.) -/
theorem c8_account_flattening (accs : List IdlAccountItem) (metas : List AccountMeta)
    (h : groupNamesNonempty accs = true) :
    formatAccounts accs metas = metas.enum.map (fun p =>
      ⟨(specAccountPaths accs).get? p.1, p.2.pubkey, p.2.isSigner, p.2.isWritable⟩) := by
  have hnames : (flattenIdlAccounts accs none).map (fun f => f.name) =
      specAccountPaths accs := by
    rw [flattenAccounts_names accs none h]
    have hid : (specAccountPaths accs).map (joinAccName none) =
        (specAccountPaths accs).map id := List.map_congr_left (fun q _ => rfl)
    rw [hid, List.map_id]
  simp only [formatAccounts]
  refine List.map_congr_left (fun p _ => ?_)
  by_cases hidx : p.1 < (flattenIdlAccounts accs none).length
  · rw [if_pos hidx]
    have hsome : (flattenIdlAccounts accs none).get? p.1 =
        some ((flattenIdlAccounts accs none).get ⟨p.1, hidx⟩) := List.get?_eq_get hidx
    have hpath : (specAccountPaths accs).get? p.1 =
        some (((flattenIdlAccounts accs none).get ⟨p.1, hidx⟩).name) := by
      rw [← hnames, List.get?_map, hsome]
      rfl
    rw [hpath]
    have hgetD : (flattenIdlAccounts accs none).getD p.1 ⟨"", false, false⟩ =
        (flattenIdlAccounts accs none).get ⟨p.1, hidx⟩ := by
      rw [List.getD_eq_get?, hsome]
      rfl
    rw [hgetD]
  · rw [if_neg hidx]
    have hnone : (specAccountPaths accs).get? p.1 = none := by
      rw [← hnames]
      refine List.get?_eq_none.mpr ?_
      rw [List.length_map]
      omega
    rw [hnone]

/-- Witness for C8: the claim's example — groups `authority{owner, payer}`
plus a top-level `systemProgram`, four metadata entries. -/
theorem c8_account_flattening_witness :
    groupNamesNonempty accsEx = true ∧
    formatAccounts accsEx metasEx = metasEx.enum.map (fun p =>
      ⟨(specAccountPaths accsEx).get? p.1, p.2.pubkey, p.2.isSigner, p.2.isWritable⟩) ∧
    (formatAccounts accsEx metasEx).map (fun a => a.name) =
      [some "Authority > Owner", some "Authority > Payer", some "System Program", none] :=
  ⟨rfl, c8_account_flattening accsEx metasEx rfl, by decide⟩

end Anchor
